import Mathlib

/-!
# Verification of the torrent middleware (`confluence/middlewares.go`)

A shallow embedding of `GetTorrent`, `withTorrentContext`,
`saveTorrentWhenGotInfo` and `cachedMetaInfo`.  Effects on the outside world
(the torrent client, the metainfo store, the log, the HTTP response, timers)
are recorded as an ordered trace of `Event`s; everything the external
libraries decide is supplied by a `World`.
-/

namespace Confluence

/-! ## Data model -/

/-- The type `metainfo.Hash`: the bytes of an infohash. -/
abbrev Hash := List Nat

/-- A torrent handle of the client, `*torrent.Torrent`, as an opaque identity. -/
abbrev Torrent := Nat

/-- Raw bytes of a stored metainfo file. -/
abbrev Bytes := List Nat

/-- Go `error` values.  A library error is a leaf with its message and whether
it matches `fs.ErrNotExist`; `wrapf pfx e` is `fmt.Errorf(pfx + ": %w", e)`. -/
inductive GoError where
  | leaf (msg : String) (notExist : Bool)
  | wrapf (pfx : String) (inner : GoError)
  deriving DecidableEq, Repr

/-- The method `Error()`. -/
def GoError.Error : GoError → String
  | .leaf msg _ => msg
  | .wrapf pfx inner => pfx ++ ": " ++ inner.Error

/-- The test `errors.Is(err, fs.ErrNotExist)`: follows the `%w` chain. -/
def GoError.isNotExist : GoError → Bool
  | .leaf _ ne => ne
  | .wrapf _ inner => inner.isNotExist

/-- The type `metainfo.Magnet`, fields used by the middleware. -/
structure Magnet where
  InfoHash : Hash
  Trackers : List String
  deriving DecidableEq, Repr

/-- The type `metainfo.MetaInfo`, fields used by the middleware. -/
structure MetaInfo where
  InfoBytes : Bytes
  AnnounceList : List (List String)
  deriving DecidableEq, Repr

/-- The type `torrent.TorrentSpec`, fields that matter once it is merged. -/
structure TorrentSpec where
  Trackers : List (List String)
  InfoBytes : Bytes
  deriving DecidableEq, Repr

/-- The type `squirrel.PinnedBlob`: a blob and what `Length()` reports. -/
structure PinnedBlob where
  content : Bytes
  Length : Nat
  deriving DecidableEq, Repr

/-- The reader `io.NewSectionReader(b, 0, b.Length())`: bytes `[0, Length)`. -/
def PinnedBlob.sectionBytes (b : PinnedBlob) : Bytes :=
  (b.content.drop 0).take b.Length

/-- The type `url.Values`: keys with their values, in order. -/
abbrev Values := List (String × List String)

/-- The method `url.Values.Get`: first value of the key, or the empty string. -/
def Values.Get (v : Values) (key : String) : String :=
  match v.lookup key with
  | none => ""
  | some [] => ""
  | some (x :: _) => x

/-- The part of `*http.Request` the middleware reads. -/
structure Request where
  query : Values
  path : String
  deriving DecidableEq, Repr

/-! ## `strings.SplitN` with a one-character separator -/

/-- Cuts a string at the first separator: what is before it and what is after
it (`strings.Index` followed by the two slicings of `genSplit`). -/
def cutAt (sep : Char) : List Char → Option (List Char × List Char)
  | [] => none
  | c :: cs =>
    if c = sep then some ([], cs)
    else match cutAt sep cs with
      | none => none
      | some (a, b) => some (c :: a, b)

/-- The loop of `genSplit`: at most `n` cuts, then the remainder. -/
def splitLoop (sep : Char) : Nat → List Char → List (List Char)
  | 0, s => [s]
  | n + 1, s =>
    match cutAt sep s with
    | none => [s]
    | some (a, rest) => a :: splitLoop sep n rest

/-- The function `strings.SplitN(s, sep, n)` for `n ≥ 0` and a separator of one
character: `n = 0` gives nothing, `n` is capped at `len(s) + 1`, and the last
part is the unsplit remainder. -/
def SplitN (s : String) (sep : Char) (n : Nat) : List String :=
  if n = 0 then []
  else
    let n := if n > s.utf8ByteSize + 1 then s.utf8ByteSize + 1 else n
    (splitLoop sep (n - 1) s.data).map String.mk

/-! ## The outside world -/

/-- What the external libraries and the rest of the program answer. -/
structure World where
  /-- The function `metainfo.ParseMagnetUri`. -/
  ParseMagnetUri : String → Except GoError Magnet
  /-- The method `metainfo.Hash.FromHexString`. -/
  FromHexString : String → Except GoError Hash
  /-- The method `metainfo.Hash.HexString`. -/
  HexString : Hash → String
  /-- The method `torrent.Client.AddTorrentInfoHash`: the handle and `new`. -/
  AddTorrentInfoHash : Hash → Torrent × Bool
  /-- The function `path.Join` on two elements. -/
  pathJoin : String → String → String
  /-- The function `filepath.FromSlash`. -/
  FromSlash : String → String
  /-- The function `os.Open` followed by reading the file. -/
  osOpen : String → Except GoError Bytes
  /-- The function `metainfo.Load`: it returns a pointer and an error. -/
  Load : Bytes → Option MetaInfo × Option GoError
  /-- The function `torrent.TorrentSpecFromMetaInfoErr` (its error is dropped). -/
  TorrentSpecFromMetaInfoErr : MetaInfo → TorrentSpec
  /-- The method `Handler.saveTorrentFile`, not part of this file. -/
  saveTorrentFile : Torrent → Option GoError
  /-- Whether the inner handler panics. -/
  handlerPanics : Torrent → Bool

/-- The fields of `Handler` the middleware reads. -/
structure Handler where
  /-- The field `TorrentGrace`, in clock units. -/
  TorrentGrace : Nat
  /-- Whether the hook `OnTorrentGrace` is non-nil. -/
  OnTorrentGrace : Bool
  /-- Whether the hook `OnNewTorrent` is non-nil. -/
  OnNewTorrent : Bool
  /-- The field `MetainfoStorage`: nil, or the `Open` of the blob store. -/
  MetainfoStorage : Option (String → Except GoError PinnedBlob)
  /-- The result of `metainfoCacheDir()`. -/
  metainfoCacheDir : String

/-! ## Infohash extraction (the closure at the top of `withTorrentContext`) -/

/-- The error of the extraction closure, by the statement that produced it. -/
inductive ExtractErr where
  /-- Line 57: `fmt.Errorf("parsing magnet: %w", err)`. -/
  | parsingMagnet (cause : GoError)
  /-- Line 75: the error of `FromHexString`, returned as it is. -/
  | hex (cause : GoError)
  /-- Line 78: `expected nonempty query parameter "magnet" or "ih"`. -/
  | missing
  deriving DecidableEq, Repr

def magnetQueryKey : String := "magnet"

def infohashQueryKey : String := "ih"

/-- The text `%q` prints for a plain word. -/
def quoted (s : String) : String := "\"" ++ s ++ "\""

/-- The message of line 78. -/
def missingMsg : String :=
  "expected nonempty query parameter " ++ quoted magnetQueryKey ++ " or " ++
    quoted infohashQueryKey

/-- The method `Error()` of the extraction error. -/
def ExtractErr.Error : ExtractErr → String
  | .parsingMagnet cause => (GoError.wrapf "parsing magnet" cause).Error
  | .hex cause => cause.Error
  | .missing => missingMsg

/-- Lines 67-72: the hex string taken from the path, or the empty string. -/
def pathInfohash (path : String) : String :=
  let parts := SplitN path '/' 5
  if parts.length ≥ 4 ∧ parts.getD 2 "" = "infohash" then parts.getD 3 "" else ""

/-- Lines 65-73: the value of `ihhex` that reaches line 74. -/
def ihhexOf (r : Request) : String :=
  let ihhex := r.query.Get infohashQueryKey
  if ihhex = "" then pathInfohash r.path else ihhex

/-- Lines 51-80: the infohash and the after-add action (the magnet whose
trackers it adds), or the error. -/
def extractInfohash (w : World) (r : Request) : Except ExtractErr (Hash × Option Magnet) :=
  let ms := r.query.Get magnetQueryKey
  if ms ≠ "" then
    match w.ParseMagnetUri ms with
    | .error err => .error (.parsingMagnet err)
    | .ok m => .ok (m.InfoHash, some m)
  else
    let ihhex := ihhexOf r
    if ihhex ≠ "" then
      match w.FromHexString ihhex with
      | .error err => .error (.hex err)
      | .ok ih => .ok (ih, none)
    else .error .missing

/-! ## Effects -/

/-- The calls the code makes on the outside world, in the order it makes them. -/
inductive Event where
  /-- The call `h.torrentRefs.NewRef(ih)`. -/
  | newRef (ih : Hash)
  /-- The call `h.TC.AddTorrentInfoHash(ih)`. -/
  | addTorrentInfoHash (ih : Hash)
  /-- The call `ref.SetCloser(...)`, the closure holding the handle `t`. -/
  | setCloser (ih : Hash) (t : Torrent)
  /-- The call `time.AfterFunc(h.TorrentGrace, ref.Release)`. -/
  | afterFunc (grace : Nat) (ih : Hash)
  /-- The timer set at `setAt` runs `ref.Release` at `firedAt`. -/
  | refRelease (ih : Hash) (setAt firedAt : Nat)
  /-- The closer closure of `GetTorrent` runs. -/
  | closer (ih : Hash) (t : Torrent)
  /-- The call `h.OnTorrentGrace(t)`. -/
  | onTorrentGrace (t : Torrent)
  /-- The call `h.MetainfoStorage.Open(p)`. -/
  | storageOpen (p : String)
  /-- The call `os.Open(p)`. -/
  | osOpen (p : String)
  /-- The call `metainfo.Load` on the bytes read. -/
  | load (b : Bytes)
  /-- The call `log.Printf("error getting cached metainfo for %q: %v", ih, err)`. -/
  | logCacheError (ih : Hash) (err : GoError)
  /-- The call `t.SetInfoBytes(b)`. -/
  | setInfoBytes (t : Torrent) (b : Bytes)
  /-- The call `me.OnNewTorrent(t, mi)`. -/
  | onNewTorrent (t : Torrent) (mi : Option MetaInfo)
  /-- The call `t.MergeSpec(spec)`. -/
  | mergeSpec (t : Torrent) (spec : TorrentSpec)
  /-- The statement `go me.saveTorrentWhenGotInfo(t)`. -/
  | goSaveTorrentWhenGotInfo (t : Torrent)
  /-- The call `t.AddTrackers(tiers)`. -/
  | addTrackers (t : Torrent) (tiers : List (List String))
  /-- The call `saveTorrentFile(t)`. -/
  | saveTorrentFile (t : Torrent)
  /-- The call `log.Printf("error saving torrent file: %s", err)`. -/
  | logSaveError (err : GoError)
  /-- The call `http.Error(w, body, code)`; the body ends with a newline. -/
  | httpError (body : String) (code : Nat)
  /-- The call of the inner handler `h(w, &request{t, me, r})`. -/
  | handler (t : Torrent)
  deriving DecidableEq, Repr

/-! ## The reference registry -/

/-- Modelled from the spec: the record of one registry entry (section 9:
"a small record {count, closer, handle}").  The closer that `GetTorrent`
installs is a closure over the handle, kept here as that handle. -/
structure Entry where
  numRefs : Nat
  closer : Option Torrent
  deriving DecidableEq, Repr

/-- Modelled from the spec: the registry `torrentRefs` (section 4.1), a mapping
from infohash to at most one entry.  Its code is not part of this file. -/
abbrev RefPool := Hash → Option Entry

/-- Modelled from the spec: `NewRef(key)` "obtains or creates the shared entry
for key and increments its count"; a created entry has count 1 and no closer. -/
def RefPool.NewRef (p : RefPool) (key : Hash) : RefPool :=
  fun k =>
    if k = key then
      match p key with
      | none => some { numRefs := 1, closer := none }
      | some e => some { e with numRefs := e.numRefs + 1 }
    else p k

/-- Modelled from the spec: `Ref.SetCloser(fn)` "sets (or replaces) the single
closer for the entry". -/
def RefPool.SetCloser (p : RefPool) (key : Hash) (fn : Torrent) : RefPool :=
  fun k =>
    if k = key then (p key).map (fun e => { e with closer := some fn })
    else p k

/-- Modelled from the spec: `Ref.Release()` "decrements the count. When the
count reaches zero, the closer (if any) is invoked exactly once synchronously
before the entry is removed."  The result is the registry afterwards and the
closer to run, if one runs; there is no transition from an absent entry. -/
def RefPool.Release (p : RefPool) (key : Hash) : Option (RefPool × Option Torrent) :=
  match p key with
  | none => none
  | some e =>
    if e.numRefs - 1 = 0 then
      some (fun k => if k = key then none else p k, e.closer)
    else
      some (fun k => if k = key then some { e with numRefs := e.numRefs - 1 } else p k, none)

/-- A pending `time.AfterFunc` timer whose callback is `ref.Release`. -/
structure Timer where
  setAt : Nat
  due : Nat
  key : Hash
  deriving DecidableEq, Repr

/-- The state the handler's methods act on. -/
structure State where
  /-- The field `torrentRefs`. -/
  refs : RefPool
  /-- The timers set and not yet fired. -/
  timers : List Timer
  /-- The clock. -/
  now : Nat
  /-- Every effect so far, oldest first. -/
  trace : List Event

/-- The state before anything happened. -/
def State.init : State :=
  { refs := fun _ => none, timers := [], now := 0, trace := [] }

/-- Records effects. -/
def State.emit (s : State) (evs : List Event) : State :=
  { s with trace := s.trace ++ evs }

/-! ## `GetTorrent` -/

/-- Lines 21-36, up to the return: take a reference, ask the client for the
torrent, install the closer.  Returns the handle and `new`. -/
def GetTorrent (AddTorrentInfoHash : Hash → Torrent × Bool) (ih : Hash) (s : State) :
    (Torrent × Bool) × State :=
  let refs := s.refs.NewRef ih
  let tn := AddTorrentInfoHash ih
  let refs := refs.SetCloser ih tn.1
  (tn, { s with
    refs := refs
    trace := s.trace ++ [.newRef ih, .addTorrentInfoHash ih, .setCloser ih tn.1] })

/-- Lines 31-34: the function `release` returned by `GetTorrent(ih)`, invoked:
it sets a timer that runs `ref.Release` after `TorrentGrace`. -/
def release (h : Handler) (ih : Hash) (s : State) : State :=
  { s with
    timers := s.timers ++ [{ setAt := s.now, due := s.now + h.TorrentGrace, key := ih }]
    trace := s.trace ++ [.afterFunc h.TorrentGrace ih] }

/-- Lines 25-30: what the closer does when it runs. -/
def runCloser (h : Handler) (ih : Hash) (t : Torrent) : List Event :=
  .closer ih t :: (if h.OnTorrentGrace then [.onTorrentGrace t] else [])

/-- A timer's callback: `ref.Release()`, running the closer if the registry
says so.  No result when the registry has no entry for the key. -/
def fireTimer (h : Handler) (tm : Timer) (s : State) : Option State :=
  match s.refs.Release tm.key with
  | none => none
  | some (refs, c) =>
    some { s with
      refs := refs
      trace := s.trace ++ .refRelease tm.key tm.setAt s.now ::
        (match c with
         | none => []
         | some t => runCloser h tm.key t) }

/-! ## `cachedMetaInfo` -/

/-- Lines 124-134: the inner closure, with the opens it makes. -/
def openMetaInfo (h : Handler) (w : World) (p : String) : Except GoError Bytes × List Event :=
  match h.MetainfoStorage with
  | some storageOpen =>
    match storageOpen p with
    | .error err => (.error (.wrapf "opening from metainfo storage" err), [.storageOpen p])
    | .ok b => (.ok b.sectionBytes, [.storageOpen p])
  | none => (w.osOpen (w.FromSlash p), [.osOpen (w.FromSlash p)])

/-- Line 123: the key of the cache entry. -/
def cachePath (h : Handler) (w : World) (infoHash : Hash) : String :=
  w.pathJoin h.metainfoCacheDir (w.HexString infoHash ++ ".torrent")

/-- Lines 122-147: the two results (metainfo, error) and the effects. -/
def cachedMetaInfo (h : Handler) (w : World) (infoHash : Hash) :
    (Option MetaInfo × Option GoError) × List Event :=
  let p := cachePath h w infoHash
  let opened := openMetaInfo h w p
  match opened.1 with
  | .error err =>
    if err.isNotExist then ((none, none), opened.2)
    else ((none, some err), opened.2)
  | .ok miR =>
    let loaded := w.Load miR
    let err := match loaded.2 with
      | some err => some (GoError.wrapf "loading metainfo" err)
      | none => none
    ((loaded.1, err), opened.2 ++ [.load miR])

/-! ## `saveTorrentWhenGotInfo` -/

/-- The two channels of the `select`. -/
inductive Signal where
  | Closed
  | GotInfo
  deriving DecidableEq, Repr

/-- Lines 111-120.  `first` is the channel that becomes ready first, `none` when
neither ever does (the `select` then blocks for ever and there is no result).
Both cases of the `select` have an empty body. -/
def saveTorrentWhenGotInfo (w : World) (t : Torrent) (first : Option Signal) :
    Option (List Event) :=
  match first with
  | none => none
  | some sig =>
    let afterSelect : List Event :=
      match sig with
      | .Closed => []
      | .GotInfo => []
    some (afterSelect ++ .saveTorrentFile t ::
      (match w.saveTorrentFile t with
       | some err => [.logSaveError err]
       | none => []))

/-! ## `withTorrentContext` -/

/-- Lines 88-101: the body of `if new`. -/
def firstSight (me : Handler) (w : World) (ih : Hash) (t : Torrent) : List Event :=
  let cached := cachedMetaInfo me w ih
  let mi := cached.1.1
  let err := cached.1.2
  cached.2
    ++ (match err with
        | some e => [.logCacheError ih e]
        | none => [])
    ++ (match mi with
        | some m => [.setInfoBytes t m.InfoBytes]
        | none => [])
    ++ (if me.OnNewTorrent then [.onNewTorrent t mi]
        else match mi with
          | some m => [.mergeSpec t (w.TorrentSpecFromMetaInfoErr m)]
          | none => [])
    ++ [.goSaveTorrentWhenGotInfo t]

/-- Lines 103-105: the after-add action, when there is one. -/
def runAfterAdd (afterAdd : Option Magnet) (t : Torrent) : List Event :=
  match afterAdd with
  | some m => [.addTrackers t [m.Trackers]]
  | none => []

/-- The start of every error body. -/
def errorIntro : String := "error determining requested infohash"

/-- Lines 81-84: the body `http.Error` writes for an extraction error. -/
def errorBody (err : ExtractErr) : String :=
  errorIntro ++ ": " ++ err.Error ++ "\n"

/-- Lines 49-109: one request through the middleware.  The second component
says whether the inner handler panicked (the panic is not recovered here; the
deferred `release()` runs all the same). -/
def withTorrentContext (me : Handler) (w : World) (r : Request) (s : State) : State × Bool :=
  match extractInfohash w r with
  | .error err => (s.emit [.httpError (errorBody err) 400], false)
  | .ok (ih, afterAdd) =>
    let got := GetTorrent w.AddTorrentInfoHash ih s
    let t := got.1.1
    let new := got.1.2
    let s := got.2
    let s := if new then s.emit (firstSight me w ih t) else s
    let s := s.emit (runAfterAdd afterAdd t)
    let s := s.emit [.saveTorrentFile t]
    let s := s.emit [.handler t]
    (release me ih s, w.handlerPanics t)

/-! ## Sequences of calls on the registry -/

/-- What can happen to the registry through `GetTorrent`. -/
inductive Op where
  /-- A call `GetTorrent(ih)`; the client answers with the handle and `new`. -/
  | getTorrent (ih : Hash) (t : Torrent) (new : Bool)
  /-- A release function returned by some `GetTorrent(ih)` is invoked. -/
  | release (ih : Hash)
  /-- One unit of time passes. -/
  | tick
  /-- The pending timer at position `j` fires, if there is one and it is due. -/
  | fire (j : Nat)
  deriving DecidableEq, Repr

/-- One step. -/
def step (h : Handler) (s : State) : Op → Option State
  | .getTorrent ih t new => some (GetTorrent (fun _ => (t, new)) ih s).2
  | .release ih => some (release h ih s)
  | .tick => some { s with now := s.now + 1 }
  | .fire j =>
    match s.timers.get? j with
    | none => some s
    | some tm =>
      if tm.due ≤ s.now then fireTimer h tm { s with timers := s.timers.eraseIdx j }
      else some s

/-- A sequence of steps. -/
def run (h : Handler) : State → List Op → Option State
  | s, [] => some s
  | s, op :: ops =>
    match step h s op with
    | none => none
    | some s' => run h s' ops

/-- Adds one to the value at `k`. -/
def bump (f : Hash → Nat) (k : Hash) : Hash → Nat :=
  fun x => if x = k then f x + 1 else f x

/-- Takes one off the value at `k`. -/
def unbump (f : Hash → Nat) (k : Hash) : Hash → Nat :=
  fun x => if x = k then f x - 1 else f x

/-- Every release function is invoked at most once and only after `GetTorrent`
returned it: `held k` counts the functions for `k` returned and not yet invoked. -/
def wellFormedFrom : (Hash → Nat) → List Op → Bool
  | _, [] => true
  | held, .getTorrent ih _ _ :: ops => wellFormedFrom (bump held ih) ops
  | held, .release ih :: ops => decide (0 < held ih) && wellFormedFrom (unbump held ih) ops
  | held, .tick :: ops => wellFormedFrom held ops
  | held, .fire _ :: ops => wellFormedFrom held ops

/-- A well-formed sequence, starting with no release function in hand. -/
def WellFormed (ops : List Op) : Prop :=
  wellFormedFrom (fun _ => 0) ops = true

instance (ops : List Op) : Decidable (WellFormed ops) :=
  inferInstanceAs (Decidable (wellFormedFrom (fun _ => 0) ops = true))

/-- The number of `GetTorrent(k)` calls in a sequence. -/
def created (k : Hash) (ops : List Op) : Nat :=
  ops.countP (fun op => match op with
    | .getTorrent ih _ _ => decide (ih = k)
    | _ => false)

/-- The number of releases of refs on `k` that have fired. -/
def fired (k : Hash) (trace : List Event) : Nat :=
  trace.countP (fun e => match e with
    | .refRelease ih _ _ => decide (ih = k)
    | _ => false)

/-- Whether the registry has an entry for `k`. -/
def present (s : State) (k : Hash) : Bool :=
  (s.refs k).isSome

/-- The count of the entry for `k`, 0 when there is none. -/
def refCount (p : RefPool) (k : Hash) : Nat :=
  match p k with
  | none => 0
  | some e => e.numRefs

/-- What the entry state machine of the spec demands as the very next effect. -/
inductive Pending where
  | nothing
  | closerOf (ih : Hash)
  | hookOf (t : Torrent)
  deriving DecidableEq, Repr

/-- The state of the checker: the count and the closer of every entry, and what
must come next. -/
structure Replay where
  counts : Hash → Nat
  closers : Hash → Option Torrent
  pending : Pending

/-- The checker before any effect: no entry, nothing demanded. -/
def Replay.start : Replay :=
  { counts := fun _ => 0, closers := fun _ => none, pending := .nothing }

/-- Sets the value at `k`. -/
def assign (f : Hash → Option Torrent) (k : Hash) (v : Option Torrent) :
    Hash → Option Torrent :=
  fun x => if x = k then v else f x

/-- The state machine of a registry entry as the spec draws it (section 4.4),
read as a checker of traces: `newRef` moves absent to live(1) or live(n) to
live(n+1); `setCloser` needs a live entry and sets or replaces its closer; a
release moves live(n ≥ 2) to live(n-1); a release at live(1) must be followed at
once by the closer of that key, run with the handle of the closer set last on
that entry, which must be followed at once by `OnTorrentGrace` of that handle
when the hook is set; the entry is then absent, without closer; the closer and
the hook occur nowhere else; no release occurs on an absent entry. -/
def lifecycleStep (hookSet : Bool) (st : Replay) (e : Event) : Option Replay :=
  match st.pending with
  | .closerOf k =>
    (match e with
     | .closer ih t =>
       if ih = k ∧ st.closers k = some t then
         some { st with
           closers := assign st.closers k none
           pending := if hookSet then .hookOf t else .nothing }
       else none
     | _ => none)
  | .hookOf t =>
    (match e with
     | .onTorrentGrace u => if u = t then some { st with pending := .nothing } else none
     | _ => none)
  | .nothing =>
    (match e with
     | .newRef ih => some { st with counts := bump st.counts ih }
     | .setCloser ih t =>
       if st.counts ih = 0 then none
       else some { st with closers := assign st.closers ih (some t) }
     | .refRelease ih _ _ =>
       if st.counts ih = 0 then none
       else if st.counts ih = 1 then
         some { st with counts := unbump st.counts ih, pending := .closerOf ih }
       else some { st with counts := unbump st.counts ih }
     | .closer _ _ => none
     | .onTorrentGrace _ => none
     | _ => some st)

/-- The checker run over a trace. -/
def lifecycleReplay (hookSet : Bool) : Replay → List Event → Option Replay
  | st, [] => some st
  | st, e :: es =>
    match lifecycleStep hookSet st e with
    | none => none
    | some st' => lifecycleReplay hookSet st' es

/-- The closer of the entry for `k`, none when there is no entry or no closer. -/
def closerAt (p : RefPool) (k : Hash) : Option Torrent :=
  match p k with
  | none => none
  | some e => e.closer

/-- The handles the client answered with, by key, one per `GetTorrent` call. -/
def acquired (ops : List Op) : List (Hash × Torrent) :=
  ops.filterMap (fun op => match op with
    | .getTorrent ih t _ => some (ih, t)
    | _ => none)

/-- The closers installed, by key and handle, one per `SetCloser` call. -/
def closersSet (trace : List Event) : List (Hash × Torrent) :=
  trace.filterMap (fun e => match e with
    | .setCloser ih t => some (ih, t)
    | _ => none)

/-- Every fired release ran no earlier than `grace` after its timer was set. -/
def graceRespected (grace : Nat) (trace : List Event) : Prop :=
  ∀ ih a b, Event.refRelease ih a b ∈ trace → a + grace ≤ b

/-! ## Classifying effects -/

/-- The stage of a request an effect belongs to: 0 acquisition, 1 cache
lookup, 2 hydration or hook, 3 start of the background saver, 4 after-add,
5 eager save, 6 dispatch, 7 the deferred release, 8 anything else. -/
def Event.stage : Event → Nat
  | .newRef _ => 0
  | .addTorrentInfoHash _ => 0
  | .setCloser _ _ => 0
  | .storageOpen _ => 1
  | .osOpen _ => 1
  | .load _ => 1
  | .logCacheError _ _ => 1
  | .setInfoBytes _ _ => 2
  | .onNewTorrent _ _ => 2
  | .mergeSpec _ _ => 2
  | .goSaveTorrentWhenGotInfo _ => 3
  | .addTrackers _ _ => 4
  | .saveTorrentFile _ => 5
  | .handler _ => 6
  | .afterFunc _ _ => 7
  | _ => 8

def Event.isNewRef : Event → Bool
  | .newRef _ => true
  | _ => false

def Event.isAddTorrentInfoHash : Event → Bool
  | .addTorrentInfoHash _ => true
  | _ => false

def Event.isHandler : Event → Bool
  | .handler _ => true
  | _ => false

def Event.isAfterFunc : Event → Bool
  | .afterFunc _ _ => true
  | _ => false

def Event.isLookup : Event → Bool
  | .storageOpen _ => true
  | .osOpen _ => true
  | .load _ => true
  | _ => false

def Event.isSave : Event → Bool
  | .saveTorrentFile _ => true
  | _ => false

def Event.isAddTrackers : Event → Bool
  | .addTrackers _ _ => true
  | _ => false

def Event.isSetInfoBytes : Event → Bool
  | .setInfoBytes _ _ => true
  | _ => false

def Event.isMergeSpec : Event → Bool
  | .mergeSpec _ _ => true
  | _ => false

def Event.isOnNewTorrent : Event → Bool
  | .onNewTorrent _ _ => true
  | _ => false

def Event.isOsOpen : Event → Bool
  | .osOpen _ => true
  | _ => false

/-- The tiers of trackers a call of the middleware puts on the torrent: the
tiers passed to `AddTrackers`, and for `MergeSpec` the trackers of the spec,
which merging adds to the torrent; no other call of the middleware adds any
(what a hook does is the hook's). -/
def Event.trackersAdded : Event → List (List String)
  | .addTrackers _ tiers => tiers
  | .mergeSpec _ spec => spec.Trackers
  | _ => []

/-- The effects of one request: what `withTorrentContext` adds to the trace. -/
def requestEvents (me : Handler) (w : World) (r : Request) (s : State) : List Event :=
  (withTorrentContext me w r s).1.trace.drop s.trace.length

/-! ## A concrete world for examples -/

/-- The value of a hexadecimal digit. -/
def hexDigit (c : Char) : Option Nat :=
  let n := c.toNat
  if 48 ≤ n ∧ n ≤ 57 then some (n - 48)
  else if 97 ≤ n ∧ n ≤ 102 then some (n - 87)
  else if 65 ≤ n ∧ n ≤ 70 then some (n - 55)
  else none

/-- Decodes pairs of hexadecimal digits. -/
def decodeHex : List Char → Option (List Nat)
  | [] => some []
  | [_] => none
  | a :: b :: rest =>
    match hexDigit a, hexDigit b, decodeHex rest with
    | some x, some y, some tail => some ((16 * x + y) :: tail)
    | _, _, _ => none

/-- A hex decoder for examples: 40 hexadecimal digits give 20 bytes. -/
def demoFromHexString (s : String) : Except GoError Hash :=
  if s.length ≠ 40 then .error (.leaf "hash hex string has bad length" false)
  else
    match decodeHex s.data with
    | none => .error (.leaf "encoding/hex: invalid byte" false)
    | some h => .ok h

/-- The infohash of the examples, in hex. -/
def demoHex : String := "0123456789abcdef0123456789abcdef01234567"

/-- The infohash of the examples. -/
def demoHash : Hash :=
  [1, 35, 69, 103, 137, 171, 205, 239, 1, 35, 69, 103, 137, 171, 205, 239, 1, 35, 69, 103]

/-- The magnet URI of the examples. -/
def demoMagnetUri : String :=
  "magnet:?xt=urn:btih:0123456789abcdef0123456789abcdef01234567&tr=http://t.example/ann"

/-- The magnet of the examples. -/
def demoMagnet : Magnet :=
  { InfoHash := demoHash, Trackers := ["http://t.example/ann"] }

/-- The cached metainfo of the examples. -/
def demoMetaInfo : MetaInfo :=
  { InfoBytes := [100, 101], AnnounceList := [] }

/-- A world for examples: it knows one magnet URI, decodes hex, finds no
torrent file on disk, adds every torrent as new with handle 7, and saves
without error. -/
def demoWorld : World :=
  { ParseMagnetUri := fun s =>
      if s = demoMagnetUri then .ok demoMagnet
      else .error (.leaf "magnet URIs have scheme magnet" false)
    FromHexString := demoFromHexString
    HexString := fun _ => demoHex
    AddTorrentInfoHash := fun _ => (7, true)
    pathJoin := fun dir name => dir ++ "/" ++ name
    FromSlash := fun p => p
    osOpen := fun _ => .error (.leaf "open: no such file or directory" true)
    Load := fun _ => (none, some (.leaf "bencode: syntax error" false))
    TorrentSpecFromMetaInfoErr := fun mi =>
      { Trackers := mi.AnnounceList, InfoBytes := mi.InfoBytes }
    saveTorrentFile := fun _ => none
    handlerPanics := fun _ => false }

/-- The demo world with the torrent file on disk. -/
def cachedWorld : World :=
  { demoWorld with
    osOpen := fun _ => .ok [100, 101]
    Load := fun _ => (some demoMetaInfo, none) }

/-- A cached metainfo with an announce list. -/
def announcedMetaInfo : MetaInfo :=
  { InfoBytes := [100, 101], AnnounceList := [["http://cached.example/ann"]] }

/-- The demo world with a torrent file on disk that has an announce list. -/
def announcedWorld : World :=
  { demoWorld with
    osOpen := fun _ => .ok [100, 101]
    Load := fun _ => (some announcedMetaInfo, none) }

/-- The demo world with a torrent file that has bytes after the metainfo: the
loader returns the metainfo it decoded together with an error. -/
def trailingWorld : World :=
  { demoWorld with
    osOpen := fun _ => .ok [100, 101, 0]
    Load := fun _ => (some demoMetaInfo, some (.leaf "error after decoding metainfo" false)) }

/-- A handler without hooks, caching on disk under `cache`, grace of 3. -/
def demoHandler : Handler :=
  { TorrentGrace := 3
    OnTorrentGrace := false
    OnNewTorrent := false
    MetainfoStorage := none
    metainfoCacheDir := "cache" }

/-- The demo handler with both hooks set. -/
def hookedHandler : Handler :=
  { demoHandler with OnTorrentGrace := true, OnNewTorrent := true }

/-- The demo handler with a blob store that has nothing. -/
def blobHandler : Handler :=
  { demoHandler with
    MetainfoStorage := some (fun _ => .error (.leaf "blob not found" true)) }

/-- The number of pending timers whose callback releases a ref on `k`. -/
def timersFor (k : Hash) (l : List Timer) : Nat :=
  l.countP (fun tm => decide (tm.key = k))

/-- What holds of every state reached by a well-formed sequence: `held k`
release functions for `k` are in hand and not yet invoked, `n k` calls
`GetTorrent(k)` were made. -/
structure Inv (h : Handler) (s : State) (held n : Hash → Nat) : Prop where
  counts : ∀ k, refCount s.refs k = held k + timersFor k s.timers
  live : ∀ k e, s.refs k = some e → 1 ≤ e.numRefs ∧ e.closer.isSome = true
  replay : ∃ st, lifecycleReplay h.OnTorrentGrace Replay.start s.trace = some st ∧
      st.pending = .nothing ∧ (∀ k, st.counts k = refCount s.refs k) ∧
      (∀ k, st.closers k = closerAt s.refs k)
  due : ∀ tm ∈ s.timers, tm.due = tm.setAt + h.TorrentGrace
  grace : graceRespected h.TorrentGrace s.trace
  balance : ∀ k, refCount s.refs k + fired k s.trace = n k

/-! ## Splitting paths -/

theorem cutAt_append (sep : Char) (a rest : List Char) (h : sep ∉ a) :
    cutAt sep (a ++ sep :: rest) = some (a, rest) := by
  induction a with
  | nil => simp [cutAt]
  | cons c cs ih =>
    have hc : c ≠ sep := by
      intro e
      exact h (by simp [e])
    have hcs : sep ∉ cs := by
      intro e
      exact h (by simp [e])
    simp [cutAt, hc, ih hcs]

theorem cutAt_none (sep : Char) (a : List Char) (h : sep ∉ a) : cutAt sep a = none := by
  induction a with
  | nil => simp [cutAt]
  | cons c cs ih =>
    have hc : c ≠ sep := by
      intro e
      exact h (by simp [e])
    have hcs : sep ∉ cs := by
      intro e
      exact h (by simp [e])
    simp [cutAt, hc, ih hcs]

theorem splitLoop_cut (sep : Char) (n : Nat) (a rest : List Char) (h : sep ∉ a) :
    splitLoop sep (n + 1) (a ++ sep :: rest) = a :: splitLoop sep n rest := by
  simp [splitLoop, cutAt_append sep a rest h]

theorem splitLoop_last (sep : Char) (n : Nat) (a : List Char) (h : sep ∉ a) :
    splitLoop sep n a = [a] := by
  cases n with
  | zero => simp [splitLoop]
  | succ n => simp [splitLoop, cutAt_none sep a h]

theorem length_le_utf8Len (cs : List Char) : cs.length ≤ String.utf8Len cs := by
  induction cs with
  | nil => simp
  | cons c cs ih =>
    have := Char.utf8Size_pos c
    simp [String.utf8Len_cons]
    omega

theorem splitLoop_length_le (sep : Char) (n : Nat) (s : List Char) :
    (splitLoop sep n s).length ≤ n + 1 := by
  induction n generalizing s with
  | zero => simp [splitLoop]
  | succ n ih =>
    unfold splitLoop
    cases hc : cutAt sep s with
    | none => simp
    | some ab =>
      obtain ⟨a, b⟩ := ab
      simp
      exact ih b

theorem SplitN_five_of_long (s : String) (h : 4 ≤ s.data.length) :
    SplitN s '/' 5 = (splitLoop '/' 4 s.data).map String.mk := by
  have h1 : s.utf8ByteSize = String.utf8Len s.data := rfl
  have h2 := length_le_utf8Len s.data
  have h3 : ¬ (5 > s.utf8ByteSize + 1) := by omega
  simp [SplitN, h3]

theorem SplitN_length_le (s : String) (n : Nat) : (SplitN s '/' n).length ≤ n := by
  unfold SplitN
  by_cases hn : n = 0
  · simp [hn]
  · simp only [hn, if_false, List.length_map]
    split
    · have := splitLoop_length_le '/' (s.utf8ByteSize + 1 - 1) s.data
      omega
    · have := splitLoop_length_le '/' (n - 1) s.data
      omega

theorem pathInfohash_four (a x : String) (ha : '/' ∉ a.data) (hx : '/' ∉ x.data) :
    SplitN ("/" ++ a ++ "/infohash/" ++ x) '/' 5 = ["", a, "infohash", x] := by
  have hd : ("/" ++ a ++ "/infohash/" ++ x).data
      = [] ++ '/' :: (a.data ++ '/' :: ("infohash".data ++ '/' :: x.data)) := by
    simp [String.data_append]
  have hlen : 4 ≤ ("/" ++ a ++ "/infohash/" ++ x).data.length := by
    rw [hd]
    simp
    omega
  have hi : '/' ∉ "infohash".data := by decide
  rw [SplitN_five_of_long _ hlen, hd, splitLoop_cut _ _ _ _ (by simp),
    splitLoop_cut _ _ _ _ ha, splitLoop_cut _ _ _ _ hi, splitLoop_last _ _ _ hx]
  rfl

theorem pathInfohash_five (a x rest : String) (ha : '/' ∉ a.data) (hx : '/' ∉ x.data) :
    SplitN ("/" ++ a ++ "/infohash/" ++ x ++ "/" ++ rest) '/' 5
      = ["", a, "infohash", x, rest] := by
  have hd : ("/" ++ a ++ "/infohash/" ++ x ++ "/" ++ rest).data
      = [] ++ '/' :: (a.data ++ '/' :: ("infohash".data ++ '/' :: (x.data ++ '/' :: rest.data))) := by
    simp [String.data_append]
  have hlen : 4 ≤ ("/" ++ a ++ "/infohash/" ++ x ++ "/" ++ rest).data.length := by
    rw [hd]
    simp
    omega
  have hi : '/' ∉ "infohash".data := by decide
  rw [SplitN_five_of_long _ hlen, hd, splitLoop_cut _ _ _ _ (by simp),
    splitLoop_cut _ _ _ _ ha, splitLoop_cut _ _ _ _ hi, splitLoop_cut _ _ _ _ hx]
  rfl

/-! ## Infohash extraction -/

theorem extractInfohash_magnet (w : World) (r : Request)
    (h : r.query.Get magnetQueryKey ≠ "") :
    extractInfohash w r =
      match w.ParseMagnetUri (r.query.Get magnetQueryKey) with
      | .error err => .error (.parsingMagnet err)
      | .ok m => .ok (m.InfoHash, some m) := by
  simp [extractInfohash, h]

theorem extractInfohash_hex (w : World) (r : Request)
    (h : r.query.Get magnetQueryKey = "") (h2 : ihhexOf r ≠ "") :
    extractInfohash w r =
      match w.FromHexString (ihhexOf r) with
      | .error err => .error (.hex err)
      | .ok ih => .ok (ih, none) := by
  simp [extractInfohash, h, h2]

theorem extractInfohash_missing (w : World) (r : Request)
    (h : r.query.Get magnetQueryKey = "") (h2 : ihhexOf r = "") :
    extractInfohash w r = .error .missing := by
  simp [extractInfohash, h, h2]

theorem extractInfohash_missing_iff (w : World) (r : Request) :
    extractInfohash w r = .error .missing ↔
      r.query.Get magnetQueryKey = "" ∧ ihhexOf r = "" := by
  constructor
  · intro h
    by_cases hm : r.query.Get magnetQueryKey = ""
    · refine ⟨hm, ?_⟩
      by_contra hx
      rw [extractInfohash_hex w r hm hx] at h
      cases hf : w.FromHexString (ihhexOf r) <;> simp [hf] at h
    · rw [extractInfohash_magnet w r hm] at h
      cases hp : w.ParseMagnetUri (r.query.Get magnetQueryKey) <;> simp [hp] at h
  · rintro ⟨hm, hx⟩
    exact extractInfohash_missing w r hm hx

theorem ihhexOf_empty_iff (r : Request) :
    ihhexOf r = "" ↔ r.query.Get infohashQueryKey = "" ∧ pathInfohash r.path = "" := by
  unfold ihhexOf
  by_cases h : r.query.Get infohashQueryKey = ""
  · simp [h]
  · simp [h]

/-- C1: extraction follows the precedence magnet, then `ih`, then the path.  With
a non-empty `magnet` the outcome is the outcome of parsing the magnet, a failed
parse being the error (no fallback), so any two requests with that same magnet
have the same outcome whatever their `ih` and path; with an empty `magnet` and a
non-empty `ih` the outcome is the outcome of hex-decoding `ih`, so any two such
requests with the same `ih` have the same outcome whatever their path; with both
empty the outcome is decided by the value taken from the path. -/
theorem extraction_precedence (w : World) (r : Request) :
    (r.query.Get "magnet" ≠ "" →
      extractInfohash w r =
        (match w.ParseMagnetUri (r.query.Get "magnet") with
         | .error err => .error (.parsingMagnet err)
         | .ok m => .ok (m.InfoHash, some m)) ∧
      ∀ r' : Request, r'.query.Get "magnet" = r.query.Get "magnet" →
        extractInfohash w r' = extractInfohash w r) ∧
    (r.query.Get "magnet" = "" → r.query.Get "ih" ≠ "" →
      extractInfohash w r =
        (match w.FromHexString (r.query.Get "ih") with
         | .error err => .error (.hex err)
         | .ok ih => .ok (ih, none)) ∧
      ∀ r' : Request, r'.query.Get "magnet" = "" → r'.query.Get "ih" = r.query.Get "ih" →
        extractInfohash w r' = extractInfohash w r) ∧
    (r.query.Get "magnet" = "" → r.query.Get "ih" = "" →
      extractInfohash w r =
        if pathInfohash r.path ≠ "" then
          (match w.FromHexString (pathInfohash r.path) with
           | .error err => .error (.hex err)
           | .ok ih => .ok (ih, none))
        else .error .missing) := by
  refine ⟨?_, ?_, ?_⟩
  · intro hm
    refine ⟨extractInfohash_magnet w r hm, ?_⟩
    intro r' hr'
    have hm' : r'.query.Get magnetQueryKey ≠ "" := by
      rw [show magnetQueryKey = "magnet" from rfl, hr']
      exact hm
    rw [extractInfohash_magnet w r hm, extractInfohash_magnet w r' hm']
    rw [show magnetQueryKey = "magnet" from rfl, hr']
  · intro hm hi
    have hx : ihhexOf r = r.query.Get "ih" := by
      simp [ihhexOf, infohashQueryKey, hi]
    have hne : ihhexOf r ≠ "" := by
      rw [hx]
      exact hi
    refine ⟨by rw [extractInfohash_hex w r hm hne, hx], ?_⟩
    intro r' hm' hi'
    have hx' : ihhexOf r' = r.query.Get "ih" := by
      have : r'.query.Get "ih" ≠ "" := by
        rw [hi']
        exact hi
      have h0 : ihhexOf r' = r'.query.Get "ih" := by
        simp [ihhexOf, infohashQueryKey, this]
      rw [h0, hi']
    have hne' : ihhexOf r' ≠ "" := by
      rw [hx']
      exact hi
    rw [extractInfohash_hex w r hm hne, extractInfohash_hex w r' hm' hne', hx, hx']
  · intro hm hi
    have hx : ihhexOf r = pathInfohash r.path := by
      simp [ihhexOf, infohashQueryKey, hi]
    by_cases hp : pathInfohash r.path = ""
    · have : ihhexOf r = "" := by rw [hx, hp]
      rw [extractInfohash_missing w r hm this]
      simp [hp]
    · have : ihhexOf r ≠ "" := by
        rw [hx]
        exact hp
      rw [extractInfohash_hex w r hm this, hx]
      simp [hp]

/-- A request whose magnet does not parse, though its `ih` and its path both
carry a good infohash: the outcome is the magnet's parse error. -/
theorem extraction_precedence_witness :
    extractInfohash demoWorld
        { query := [("magnet", ["not-a-magnet"]), ("ih", [demoHex])],
          path := "/x/infohash/0123456789abcdef0123456789abcdef01234567" }
      = .error (.parsingMagnet (.leaf "magnet URIs have scheme magnet" false)) :=
  ((extraction_precedence demoWorld
      { query := [("magnet", ["not-a-magnet"]), ("ih", [demoHex])],
        path := "/x/infohash/0123456789abcdef0123456789abcdef01234567" }).1
    (by decide)).1.trans rfl

/-! ## The request as a whole -/

theorem requestEvents_of_trace (me : Handler) (w : World) (r : Request) (s : State)
    (evs : List Event) (h : (withTorrentContext me w r s).1.trace = s.trace ++ evs) :
    requestEvents me w r s = evs := by
  simp [requestEvents, h]

theorem withTorrentContext_error (me : Handler) (w : World) (r : Request) (s : State)
    (err : ExtractErr) (h : extractInfohash w r = .error err) :
    withTorrentContext me w r s = (s.emit [.httpError (errorBody err) 400], false) := by
  simp [withTorrentContext, h]

theorem withTorrentContext_ok (me : Handler) (w : World) (r : Request) (s : State)
    (ih : Hash) (afterAdd : Option Magnet) (h : extractInfohash w r = .ok (ih, afterAdd)) :
    (withTorrentContext me w r s).1.trace =
      s.trace ++
        ([.newRef ih, .addTorrentInfoHash ih, .setCloser ih (w.AddTorrentInfoHash ih).1]
          ++ (if (w.AddTorrentInfoHash ih).2 then firstSight me w ih (w.AddTorrentInfoHash ih).1
              else [])
          ++ runAfterAdd afterAdd (w.AddTorrentInfoHash ih).1
          ++ [.saveTorrentFile (w.AddTorrentInfoHash ih).1]
          ++ [.handler (w.AddTorrentInfoHash ih).1]
          ++ [.afterFunc me.TorrentGrace ih]) := by
  cases hn : (w.AddTorrentInfoHash ih).2 <;>
    simp [withTorrentContext, h, GetTorrent, release, State.emit, hn]

theorem requestEvents_error (me : Handler) (w : World) (r : Request) (s : State)
    (err : ExtractErr) (h : extractInfohash w r = .error err) :
    requestEvents me w r s = [.httpError (errorBody err) 400] := by
  apply requestEvents_of_trace
  simp [withTorrentContext_error me w r s err h, State.emit]

theorem requestEvents_ok (me : Handler) (w : World) (r : Request) (s : State)
    (ih : Hash) (afterAdd : Option Magnet) (h : extractInfohash w r = .ok (ih, afterAdd)) :
    requestEvents me w r s =
      [.newRef ih, .addTorrentInfoHash ih, .setCloser ih (w.AddTorrentInfoHash ih).1]
        ++ (if (w.AddTorrentInfoHash ih).2 then firstSight me w ih (w.AddTorrentInfoHash ih).1
            else [])
        ++ runAfterAdd afterAdd (w.AddTorrentInfoHash ih).1
        ++ [.saveTorrentFile (w.AddTorrentInfoHash ih).1]
        ++ [.handler (w.AddTorrentInfoHash ih).1]
        ++ [.afterFunc me.TorrentGrace ih] :=
  requestEvents_of_trace me w r s _ (withTorrentContext_ok me w r s ih afterAdd h)

/-- C3: whenever extraction fails the only effect of the request is one
`http.Error` with status 400 whose body is "error determining requested
infohash: ", the cause, and the newline `http.Error` adds.  The cause is
"parsing magnet: " and the parse error when a non-empty magnet does not parse,
the error of the hex decoder as it is when a non-empty hex string (from `ih` or
from the path) does not decode, and the missing-parameter message exactly when
`magnet` is empty, `ih` is empty and the path gives no non-empty value. -/
theorem extraction_failure_response (me : Handler) (w : World) (r : Request) (s : State) :
    (∀ err, extractInfohash w r = .error err →
      requestEvents me w r s =
        [.httpError ("error determining requested infohash: " ++ err.Error ++ "\n") 400]) ∧
    (∀ e, r.query.Get "magnet" ≠ "" → w.ParseMagnetUri (r.query.Get "magnet") = .error e →
      extractInfohash w r = .error (.parsingMagnet e) ∧
      (ExtractErr.parsingMagnet e).Error = "parsing magnet: " ++ e.Error) ∧
    (∀ e, r.query.Get "magnet" = "" → ihhexOf r ≠ "" →
      w.FromHexString (ihhexOf r) = .error e →
      extractInfohash w r = .error (.hex e) ∧ (ExtractErr.hex e).Error = e.Error) ∧
    (extractInfohash w r = .error .missing ↔
      r.query.Get "magnet" = "" ∧ r.query.Get "ih" = "" ∧ pathInfohash r.path = "") ∧
    ExtractErr.missing.Error = "expected nonempty query parameter \"magnet\" or \"ih\"" ∧
    (∀ err, extractInfohash w r = .error err →
      (∃ e, err = .parsingMagnet e ∧ r.query.Get "magnet" ≠ "" ∧
        w.ParseMagnetUri (r.query.Get "magnet") = .error e) ∨
      (∃ e, err = .hex e ∧ r.query.Get "magnet" = "" ∧ ihhexOf r ≠ "" ∧
        w.FromHexString (ihhexOf r) = .error e) ∨
      (err = .missing ∧ r.query.Get "magnet" = "" ∧ ihhexOf r = "")) := by
  refine ⟨?_, ?_, ?_, ?_, ?_, ?_⟩
  rotate_left 5
  · intro err herr
    by_cases hm : r.query.Get magnetQueryKey = ""
    · by_cases hx : ihhexOf r = ""
      · rw [extractInfohash_missing w r hm hx] at herr
        cases herr
        exact Or.inr (Or.inr ⟨rfl, hm, hx⟩)
      · rw [extractInfohash_hex w r hm hx] at herr
        cases hf : w.FromHexString (ihhexOf r) with
        | error e =>
          simp [hf] at herr
          exact Or.inr (Or.inl ⟨e, herr.symm, hm, hx, rfl⟩)
        | ok v => simp [hf] at herr
    · rw [extractInfohash_magnet w r hm] at herr
      cases hp : w.ParseMagnetUri (r.query.Get magnetQueryKey) with
      | error e =>
        simp [hp] at herr
        exact Or.inl ⟨e, herr.symm, hm, hp⟩
      | ok v => simp [hp] at herr
  · intro err h
    rw [requestEvents_error me w r s err h]
    simp [errorBody, errorIntro, String.append_assoc]
  · intro e hm hp
    refine ⟨?_, ?_⟩
    · rw [extractInfohash_magnet w r hm]
      simp [magnetQueryKey, hp]
    · simp [ExtractErr.Error, GoError.Error, String.append_assoc]
  · intro e hm hx hf
    refine ⟨?_, rfl⟩
    rw [extractInfohash_hex w r hm hx]
    simp [hf]
  · rw [extractInfohash_missing_iff, ihhexOf_empty_iff]
    rfl
  · decide

/-- The request `GET /x?ih=deadbeef`: the hex string does not decode to 20
bytes, and the response is a 400 carrying the decoder's error. -/
theorem extraction_failure_response_witness :
    requestEvents demoHandler demoWorld { query := [("ih", ["deadbeef"])], path := "/x" }
        State.init
      = [.httpError
          "error determining requested infohash: hash hex string has bad length\n" 400] :=
  ((extraction_failure_response demoHandler demoWorld
      { query := [("ih", ["deadbeef"])], path := "/x" } State.init).1
    (.hex (.leaf "hash hex string has bad length" false)) rfl).trans rfl

/-! ## Path-style addressing -/

/-- C8: the path is split on "/" into at most 5 parts; the value taken from it
is the part at position 3 when there are at least 4 parts and the part at
position 2 is "infohash", and no value (the empty string) otherwise; it is what
extraction uses when `ih` is empty.  So for `a` and `x` without "/", the paths
`/a/infohash/x` and `/a/infohash/x/rest`, for any `rest`, both give `x`. -/
theorem path_addressing (r : Request) :
    (SplitN r.path '/' 5).length ≤ 5 ∧
    (r.query.Get "ih" = "" → ihhexOf r = pathInfohash r.path) ∧
    (4 ≤ (SplitN r.path '/' 5).length → (SplitN r.path '/' 5)[2]? = some "infohash" →
      (SplitN r.path '/' 5)[3]? = some (pathInfohash r.path)) ∧
    ((SplitN r.path '/' 5).length < 4 ∨ (SplitN r.path '/' 5)[2]? ≠ some "infohash" →
      pathInfohash r.path = "") ∧
    (∀ a x : String, '/' ∉ a.data → '/' ∉ x.data →
      pathInfohash ("/" ++ a ++ "/infohash/" ++ x) = x ∧
      ∀ rest : String, pathInfohash ("/" ++ a ++ "/infohash/" ++ x ++ "/" ++ rest) = x) := by
  refine ⟨SplitN_length_le r.path 5, ?_, ?_, ?_, ?_⟩
  · intro hi
    simp [ihhexOf, infohashQueryKey, hi]
  · intro hlen h2
    have h2' : (SplitN r.path '/' 5).getD 2 "" = "infohash" := by
      simp [List.getD_eq_getElem?_getD, h2]
    have h3 : 3 < (SplitN r.path '/' 5).length := by omega
    simp only [pathInfohash, ge_iff_le, hlen, h2', and_self, if_true]
    rw [List.getD_eq_getElem?_getD, List.getElem?_eq_getElem h3]
    rfl
  · intro h
    unfold pathInfohash
    rcases h with h | h
    · have : ¬ (4 ≤ (SplitN r.path '/' 5).length) := by omega
      simp [this]
    · by_cases hlen : 4 ≤ (SplitN r.path '/' 5).length
      · have h2 : 2 < (SplitN r.path '/' 5).length := by omega
        have : (SplitN r.path '/' 5).getD 2 "" ≠ "infohash" := by
          intro hc
          apply h
          rw [List.getD_eq_getElem?_getD, List.getElem?_eq_getElem h2] at hc
          rw [List.getElem?_eq_getElem h2]
          simpa using hc
        rw [if_neg]
        intro hc
        exact this hc.2
      · simp [hlen]
  · intro a x ha hx
    refine ⟨?_, ?_⟩
    · simp [pathInfohash, pathInfohash_four a x ha hx]
    · intro rest
      simp [pathInfohash, pathInfohash_five a x rest ha hx]

/-- The paths `/y/infohash/<hex>` and `/y/infohash/<hex>/foo/bar` both give the
hex string. -/
theorem path_addressing_witness :
    pathInfohash ("/" ++ "y" ++ "/infohash/" ++ demoHex) = demoHex ∧
    pathInfohash ("/" ++ "y" ++ "/infohash/" ++ demoHex ++ "/" ++ "foo/bar") = demoHex :=
  ⟨((path_addressing { query := [], path := "/x" }).2.2.2.2 "y" demoHex
      (by decide) (by decide)).1,
   ((path_addressing { query := [], path := "/x" }).2.2.2.2 "y" demoHex
      (by decide) (by decide)).2 "foo/bar"⟩

/-! ## The metainfo cache -/

theorem openMetaInfo_events (h : Handler) (w : World) (p : String) :
    (openMetaInfo h w p).2 =
      match h.MetainfoStorage with
      | some _ => [.storageOpen p]
      | none => [.osOpen (w.FromSlash p)] := by
  unfold openMetaInfo
  cases hs : h.MetainfoStorage with
  | none => rfl
  | some f => cases hf : f p <;> simp [hf]

theorem cachedMetaInfo_of_open_error (h : Handler) (w : World) (ih : Hash) (e : GoError)
    (ho : (openMetaInfo h w (cachePath h w ih)).1 = .error e) :
    cachedMetaInfo h w ih =
      ((none, if e.isNotExist then none else some e),
        (openMetaInfo h w (cachePath h w ih)).2) := by
  unfold cachedMetaInfo
  cases hn : e.isNotExist <;> simp [ho, hn]

theorem cachedMetaInfo_of_open_ok (h : Handler) (w : World) (ih : Hash) (b : Bytes)
    (ho : (openMetaInfo h w (cachePath h w ih)).1 = .ok b) :
    cachedMetaInfo h w ih =
      (((w.Load b).1,
          match (w.Load b).2 with
          | some err => some (GoError.wrapf "loading metainfo" err)
          | none => none),
        (openMetaInfo h w (cachePath h w ih)).2 ++ [.load b]) := by
  unfold cachedMetaInfo
  simp [ho]

theorem cachedMetaInfo_events (h : Handler) (w : World) (ih : Hash) :
    ∃ opening loading,
      (cachedMetaInfo h w ih).2 = opening :: loading ∧
      (opening = (match h.MetainfoStorage with
          | some _ => Event.storageOpen (cachePath h w ih)
          | none => Event.osOpen (w.FromSlash (cachePath h w ih)))) ∧
      (loading = [] ∨ ∃ b, loading = [.load b]) := by
  cases ho : (openMetaInfo h w (cachePath h w ih)).1 with
  | error e =>
    rw [cachedMetaInfo_of_open_error h w ih e ho, openMetaInfo_events]
    cases hs : h.MetainfoStorage <;> exact ⟨_, [], rfl, rfl, Or.inl rfl⟩
  | ok b =>
    rw [cachedMetaInfo_of_open_ok h w ih b ho, openMetaInfo_events]
    cases hs : h.MetainfoStorage <;> exact ⟨_, [.load b], rfl, rfl, Or.inr ⟨b, rfl⟩⟩

/-- C6, as the code has it: the lookup key is the join of the cache directory
and `<hex>.torrent`; with a blob store only the store is opened, under that
key, and the filesystem never; an open that fails with a not-exist error, also
one wrapped by "opening from metainfo storage", gives (nil, nil); any other
failed open gives (nil, that error); after a successful open the result is the
metainfo the loader returned together with the loader's error wrapped as
"loading metainfo", or nil when the loader reported none.  A loader that
returns a metainfo and an error therefore makes `cachedMetaInfo` return both. -/
theorem cachedMetaInfo_outcomes (h : Handler) (w : World) (ih : Hash) :
    cachePath h w ih = w.pathJoin h.metainfoCacheDir (w.HexString ih ++ ".torrent") ∧
    (∀ storageOpen, h.MetainfoStorage = some storageOpen →
      (cachedMetaInfo h w ih).2.head? = some (.storageOpen (cachePath h w ih)) ∧
      (∀ e ∈ (cachedMetaInfo h w ih).2, e.isOsOpen = false) ∧
      (∀ e, storageOpen (cachePath h w ih) = .error e → e.isNotExist = true →
        (GoError.wrapf "opening from metainfo storage" e).isNotExist = true ∧
        (cachedMetaInfo h w ih).1 = (none, none)) ∧
      (∀ e, storageOpen (cachePath h w ih) = .error e → e.isNotExist = false →
        (cachedMetaInfo h w ih).1 =
          (none, some (.wrapf "opening from metainfo storage" e))) ∧
      (∀ b, storageOpen (cachePath h w ih) = .ok b →
        (cachedMetaInfo h w ih).1 =
          ((w.Load b.sectionBytes).1,
            (w.Load b.sectionBytes).2.map (GoError.wrapf "loading metainfo")))) ∧
    (h.MetainfoStorage = none →
      (cachedMetaInfo h w ih).2.head? = some (.osOpen (w.FromSlash (cachePath h w ih))) ∧
      (∀ e, w.osOpen (w.FromSlash (cachePath h w ih)) = .error e → e.isNotExist = true →
        (cachedMetaInfo h w ih).1 = (none, none)) ∧
      (∀ e, w.osOpen (w.FromSlash (cachePath h w ih)) = .error e → e.isNotExist = false →
        (cachedMetaInfo h w ih).1 = (none, some e)) ∧
      (∀ b, w.osOpen (w.FromSlash (cachePath h w ih)) = .ok b →
        (cachedMetaInfo h w ih).1 =
          ((w.Load b).1, (w.Load b).2.map (GoError.wrapf "loading metainfo")))) := by
  refine ⟨rfl, ?_, ?_⟩
  · intro f hs
    obtain ⟨opening, loading, hev, hop, hl⟩ := cachedMetaInfo_events h w ih
    rw [hs] at hop
    simp only at hop
    refine ⟨by rw [hev, hop]; rfl, ?_, ?_, ?_, ?_⟩
    · intro e he
      rw [hev, hop] at he
      rcases hl with hl | ⟨b, hl⟩ <;> simp [hl] at he
      · rw [he]; rfl
      · rcases he with he | he <;> rw [he] <;> rfl
    · intro e he hn
      have ho : (openMetaInfo h w (cachePath h w ih)).1
          = .error (.wrapf "opening from metainfo storage" e) := by
        simp [openMetaInfo, hs, he]
      rw [cachedMetaInfo_of_open_error h w ih _ ho]
      simp [GoError.isNotExist, hn]
    · intro e he hn
      have ho : (openMetaInfo h w (cachePath h w ih)).1
          = .error (.wrapf "opening from metainfo storage" e) := by
        simp [openMetaInfo, hs, he]
      rw [cachedMetaInfo_of_open_error h w ih _ ho]
      simp [GoError.isNotExist, hn]
    · intro b hb
      have ho : (openMetaInfo h w (cachePath h w ih)).1 = .ok b.sectionBytes := by
        simp [openMetaInfo, hs, hb]
      rw [cachedMetaInfo_of_open_ok h w ih _ ho]
      cases (w.Load b.sectionBytes).2 <;> rfl
  · intro hs
    obtain ⟨opening, loading, hev, hop, hl⟩ := cachedMetaInfo_events h w ih
    rw [hs] at hop
    simp only at hop
    refine ⟨by rw [hev, hop]; rfl, ?_, ?_, ?_⟩
    · intro e he hn
      have ho : (openMetaInfo h w (cachePath h w ih)).1 = .error e := by
        simp [openMetaInfo, hs, he]
      rw [cachedMetaInfo_of_open_error h w ih _ ho]
      simp [hn]
    · intro e he hn
      have ho : (openMetaInfo h w (cachePath h w ih)).1 = .error e := by
        simp [openMetaInfo, hs, he]
      rw [cachedMetaInfo_of_open_error h w ih _ ho]
      simp [hn]
    · intro b hb
      have ho : (openMetaInfo h w (cachePath h w ih)).1 = .ok b := by
        simp [openMetaInfo, hs, hb]
      rw [cachedMetaInfo_of_open_ok h w ih _ ho]
      cases (w.Load b).2 <;> rfl

/-- A blob store that reports a not-exist error: nothing found, no error, and
only the store was opened. -/
theorem cachedMetaInfo_outcomes_witness :
    cachedMetaInfo blobHandler demoWorld demoHash
      = ((none, none),
         [.storageOpen "cache/0123456789abcdef0123456789abcdef01234567.torrent"]) :=
  have h := (cachedMetaInfo_outcomes blobHandler demoWorld demoHash).2.1
    (fun _ => .error (.leaf "blob not found" true)) rfl
  Prod.ext (h.2.2.1 (.leaf "blob not found" true) rfl rfl).2 rfl

/-- A stored file with bytes after the metainfo: `cachedMetaInfo` returns a
metainfo and a non-nil error at once, which is none of the three outcomes. -/
theorem cachedMetaInfo_both_results :
    (cachedMetaInfo demoHandler trailingWorld demoHash).1
      = (some demoMetaInfo,
         some (.wrapf "loading metainfo" (.leaf "error after decoding metainfo" false))) := by
  rfl

theorem cachedMetaInfo_shapes (h : Handler) (w : World) (ih : Hash) :
    (∃ p, (cachedMetaInfo h w ih).2 = [.storageOpen p]) ∨
    (∃ p b, (cachedMetaInfo h w ih).2 = [.storageOpen p, .load b]) ∨
    (∃ p, (cachedMetaInfo h w ih).2 = [.osOpen p]) ∨
    (∃ p b, (cachedMetaInfo h w ih).2 = [.osOpen p, .load b]) := by
  obtain ⟨opening, loading, hev, hop, hl⟩ := cachedMetaInfo_events h w ih
  subst hop
  cases hs : h.MetainfoStorage with
  | none =>
    simp only [hs] at hev
    rcases hl with hl | ⟨b, hl⟩
    · exact Or.inr (Or.inr (Or.inl ⟨_, by rw [hev, hl]⟩))
    · exact Or.inr (Or.inr (Or.inr ⟨_, b, by rw [hev, hl]⟩))
  | some f =>
    simp only [hs] at hev
    rcases hl with hl | ⟨b, hl⟩
    · exact Or.inl ⟨_, by rw [hev, hl]⟩
    · exact Or.inr (Or.inl ⟨_, b, by rw [hev, hl]⟩)

/-! ## First sight of a torrent -/

theorem cachedMetaInfo_events_stage (h : Handler) (w : World) (ih : Hash) :
    ∀ e ∈ (cachedMetaInfo h w ih).2, e.stage = 1 ∧ e.isLookup = true := by
  obtain ⟨opening, loading, hev, hop, hl⟩ := cachedMetaInfo_events h w ih
  intro e he
  rw [hev] at he
  have h1 : opening.stage = 1 ∧ opening.isLookup = true := by
    rw [hop]
    cases h.MetainfoStorage <;> exact ⟨rfl, rfl⟩
  rcases hl with hl | ⟨b, hl⟩
  · simp [hl] at he
    rw [he]
    exact h1
  · simp [hl] at he
    rcases he with he | he
    · rw [he]
      exact h1
    · rw [he]
      exact ⟨rfl, rfl⟩

theorem firstSight_stage (me : Handler) (w : World) (ih : Hash) (t : Torrent) :
    ∀ e ∈ firstSight me w ih t, 1 ≤ e.stage ∧ e.stage ≤ 3 := by
  intro e he
  simp only [firstSight, List.mem_append] at he
  rcases he with (((he | he) | he) | he) | he
  · have := (cachedMetaInfo_events_stage me w ih e he).1
    omega
  · cases herr : (cachedMetaInfo me w ih).1.2 <;> simp [herr] at he
    rw [he]
    simp [Event.stage]
  · cases hmi : (cachedMetaInfo me w ih).1.1 <;> simp [hmi] at he
    rw [he]
    simp [Event.stage]
  · cases hh : me.OnNewTorrent <;> simp [hh] at he
    · cases hmi : (cachedMetaInfo me w ih).1.1 <;> simp [hmi] at he
      rw [he]
      simp [Event.stage]
    · rw [he]
      simp [Event.stage]
  · simp at he
    rw [he]
    simp [Event.stage]

theorem firstSight_sorted (me : Handler) (w : World) (ih : Hash) (t : Torrent) :
    ((firstSight me w ih t).map Event.stage).Pairwise (· ≤ ·) := by
  simp only [firstSight]
  rcases cachedMetaInfo_shapes me w ih with ⟨p, hev⟩ | ⟨p, b, hev⟩ | ⟨p, hev⟩ | ⟨p, b, hev⟩ <;>
    cases (cachedMetaInfo me w ih).1.2 <;>
    cases (cachedMetaInfo me w ih).1.1 <;>
    cases me.OnNewTorrent <;>
    simp [hev, Event.stage]

theorem filter_firstSight_nil (me : Handler) (w : World) (ih : Hash) (t : Torrent)
    (c : Event → Bool) (hc : ∀ e : Event, 1 ≤ e.stage → e.stage ≤ 3 → c e = false) :
    (firstSight me w ih t).filter c = [] := by
  rw [List.filter_eq_nil_iff]
  intro e he
  have := firstSight_stage me w ih t e he
  simp [hc e this.1 this.2]

theorem filter_firstSight_setInfoBytes (me : Handler) (w : World) (ih : Hash) (t : Torrent) :
    (firstSight me w ih t).filter Event.isSetInfoBytes =
      match (cachedMetaInfo me w ih).1.1 with
      | some m => [.setInfoBytes t m.InfoBytes]
      | none => [] := by
  simp only [firstSight]
  rcases cachedMetaInfo_shapes me w ih with ⟨p, hev⟩ | ⟨p, b, hev⟩ | ⟨p, hev⟩ | ⟨p, b, hev⟩ <;>
    cases (cachedMetaInfo me w ih).1.2 <;>
    cases (cachedMetaInfo me w ih).1.1 <;>
    cases me.OnNewTorrent <;>
    simp [hev, List.filter, Event.isSetInfoBytes]

theorem filter_firstSight_onNewTorrent (me : Handler) (w : World) (ih : Hash) (t : Torrent) :
    (firstSight me w ih t).filter Event.isOnNewTorrent =
      if me.OnNewTorrent then [.onNewTorrent t (cachedMetaInfo me w ih).1.1] else [] := by
  simp only [firstSight]
  rcases cachedMetaInfo_shapes me w ih with ⟨p, hev⟩ | ⟨p, b, hev⟩ | ⟨p, hev⟩ | ⟨p, b, hev⟩ <;>
    cases (cachedMetaInfo me w ih).1.2 <;>
    cases (cachedMetaInfo me w ih).1.1 <;>
    cases me.OnNewTorrent <;>
    simp [hev, List.filter, Event.isOnNewTorrent]

theorem filter_firstSight_mergeSpec (me : Handler) (w : World) (ih : Hash) (t : Torrent) :
    (firstSight me w ih t).filter Event.isMergeSpec =
      if me.OnNewTorrent then []
      else match (cachedMetaInfo me w ih).1.1 with
        | some m => [.mergeSpec t (w.TorrentSpecFromMetaInfoErr m)]
        | none => [] := by
  simp only [firstSight]
  rcases cachedMetaInfo_shapes me w ih with ⟨p, hev⟩ | ⟨p, b, hev⟩ | ⟨p, hev⟩ | ⟨p, b, hev⟩ <;>
    cases (cachedMetaInfo me w ih).1.2 <;>
    cases (cachedMetaInfo me w ih).1.1 <;>
    cases me.OnNewTorrent <;>
    simp [hev, List.filter, Event.isMergeSpec]

theorem filter_firstSight_lookup (me : Handler) (w : World) (ih : Hash) (t : Torrent) :
    (firstSight me w ih t).filter Event.isLookup = (cachedMetaInfo me w ih).2 := by
  simp only [firstSight]
  rcases cachedMetaInfo_shapes me w ih with ⟨p, hev⟩ | ⟨p, b, hev⟩ | ⟨p, hev⟩ | ⟨p, b, hev⟩ <;>
    cases (cachedMetaInfo me w ih).1.2 <;>
    cases (cachedMetaInfo me w ih).1.1 <;>
    cases me.OnNewTorrent <;>
    simp [hev, List.filter, Event.isLookup]

theorem runAfterAdd_stage (afterAdd : Option Magnet) (t : Torrent) :
    ∀ e ∈ runAfterAdd afterAdd t, e.stage = 4 := by
  intro e he
  cases afterAdd <;> simp [runAfterAdd] at he
  rw [he]
  rfl

theorem filter_runAfterAdd_nil (afterAdd : Option Magnet) (t : Torrent)
    (c : Event → Bool) (hc : ∀ e : Event, e.stage = 4 → c e = false) :
    (runAfterAdd afterAdd t).filter c = [] := by
  rw [List.filter_eq_nil_iff]
  intro e he
  simp [hc e (runAfterAdd_stage afterAdd t e he)]

/-! ## Acquisition, dispatch and release -/

theorem withTorrentContext_state_ok (me : Handler) (w : World) (r : Request) (s : State)
    (ih : Hash) (afterAdd : Option Magnet) (h : extractInfohash w r = .ok (ih, afterAdd)) :
    (withTorrentContext me w r s).1.refs
        = (s.refs.NewRef ih).SetCloser ih (w.AddTorrentInfoHash ih).1 ∧
    (withTorrentContext me w r s).1.timers
        = s.timers ++ [{ setAt := s.now, due := s.now + me.TorrentGrace, key := ih }] ∧
    (withTorrentContext me w r s).2 = w.handlerPanics (w.AddTorrentInfoHash ih).1 := by
  cases hn : (w.AddTorrentInfoHash ih).2 <;>
    simp [withTorrentContext, h, GetTorrent, release, State.emit, hn]

/-- C2: a request whose extraction succeeds with infohash `ih` calls `GetTorrent`
once (one `NewRef`, one `AddTorrentInfoHash`, first of all its effects), calls
the inner handler once, and ends by invoking the release function once, right
after the inner handler, which sets one timer for `ref.Release` due
`TorrentGrace` later; this holds for every `new` flag, cache answer, save answer
and hook configuration, and also when the inner handler panics.  A request
whose extraction fails acquires nothing, looks nothing up, saves nothing, does
not call the inner handler and sets no timer. -/
theorem acquire_dispatch_release (me : Handler) (w : World) (r : Request) (s : State) :
    (∀ ih afterAdd, extractInfohash w r = .ok (ih, afterAdd) →
      (requestEvents me w r s).filter Event.isNewRef = [.newRef ih] ∧
      (requestEvents me w r s).filter Event.isAddTorrentInfoHash = [.addTorrentInfoHash ih] ∧
      (requestEvents me w r s).filter Event.isHandler
        = [.handler (w.AddTorrentInfoHash ih).1] ∧
      (requestEvents me w r s).filter Event.isAfterFunc = [.afterFunc me.TorrentGrace ih] ∧
      (∃ mid, requestEvents me w r s =
        .newRef ih :: .addTorrentInfoHash ih :: .setCloser ih (w.AddTorrentInfoHash ih).1 ::
          (mid ++ [.handler (w.AddTorrentInfoHash ih).1, .afterFunc me.TorrentGrace ih])) ∧
      (withTorrentContext me w r s).1.refs
        = (s.refs.NewRef ih).SetCloser ih (w.AddTorrentInfoHash ih).1 ∧
      (withTorrentContext me w r s).1.timers
        = s.timers ++ [{ setAt := s.now, due := s.now + me.TorrentGrace, key := ih }]) ∧
    (∀ err, extractInfohash w r = .error err →
      (∀ e ∈ requestEvents me w r s,
        e.isNewRef = false ∧ e.isAddTorrentInfoHash = false ∧ e.isLookup = false ∧
        e.isSave = false ∧ e.isHandler = false ∧ e.isAfterFunc = false) ∧
      (withTorrentContext me w r s).1.refs = s.refs ∧
      (withTorrentContext me w r s).1.timers = s.timers) ∧
    ((∃ ih, Event.newRef ih ∈ requestEvents me w r s) ↔ ∃ v, extractInfohash w r = .ok v) ∧
    ((∃ t, Event.handler t ∈ requestEvents me w r s) ↔ ∃ v, extractInfohash w r = .ok v) := by
  refine ⟨?_, ?_, ?_, ?_⟩
  rotate_left 2
  · cases hex : extractInfohash w r with
    | error err =>
      rw [requestEvents_error me w r s err hex]
      simp
    | ok v =>
      rw [requestEvents_ok me w r s v.1 v.2 hex]
      simp
  · cases hex : extractInfohash w r with
    | error err =>
      rw [requestEvents_error me w r s err hex]
      simp
    | ok v =>
      rw [requestEvents_ok me w r s v.1 v.2 hex]
      refine ⟨fun _ => ⟨v, rfl⟩, fun _ => ⟨(w.AddTorrentInfoHash v.1).1, ?_⟩⟩
      simp
  · intro ih afterAdd hok
    have hst := withTorrentContext_state_ok me w r s ih afterAdd hok
    rw [requestEvents_ok me w r s ih afterAdd hok]
    refine ⟨?_, ?_, ?_, ?_, ?_, hst.1, hst.2.1⟩
    · cases (w.AddTorrentInfoHash ih).2 <;>
        simp [List.filter_append, List.filter_cons, Event.isNewRef,
          filter_firstSight_nil me w ih _ Event.isNewRef
            (by intro e; cases e <;> simp [Event.stage, Event.isNewRef]),
          filter_runAfterAdd_nil afterAdd _ Event.isNewRef
            (by intro e; cases e <;> simp [Event.stage, Event.isNewRef])]
    · cases (w.AddTorrentInfoHash ih).2 <;>
        simp [List.filter_append, List.filter_cons, Event.isAddTorrentInfoHash,
          filter_firstSight_nil me w ih _ Event.isAddTorrentInfoHash
            (by intro e; cases e <;> simp [Event.stage, Event.isAddTorrentInfoHash]),
          filter_runAfterAdd_nil afterAdd _ Event.isAddTorrentInfoHash
            (by intro e; cases e <;> simp [Event.stage, Event.isAddTorrentInfoHash])]
    · cases (w.AddTorrentInfoHash ih).2 <;>
        simp [List.filter_append, List.filter_cons, Event.isHandler,
          filter_firstSight_nil me w ih _ Event.isHandler
            (by intro e; cases e <;> simp [Event.stage, Event.isHandler]),
          filter_runAfterAdd_nil afterAdd _ Event.isHandler
            (by intro e; cases e <;> simp [Event.stage, Event.isHandler])]
    · cases (w.AddTorrentInfoHash ih).2 <;>
        simp [List.filter_append, List.filter_cons, Event.isAfterFunc,
          filter_firstSight_nil me w ih _ Event.isAfterFunc
            (by intro e; cases e <;> simp [Event.stage, Event.isAfterFunc]),
          filter_runAfterAdd_nil afterAdd _ Event.isAfterFunc
            (by intro e; cases e <;> simp [Event.stage, Event.isAfterFunc])]
    · refine ⟨(if (w.AddTorrentInfoHash ih).2 then
          firstSight me w ih (w.AddTorrentInfoHash ih).1 else [])
        ++ runAfterAdd afterAdd (w.AddTorrentInfoHash ih).1
        ++ [.saveTorrentFile (w.AddTorrentInfoHash ih).1], ?_⟩
      simp
  · intro err herr
    rw [requestEvents_error me w r s err herr, withTorrentContext_error me w r s err herr]
    refine ⟨?_, rfl, rfl⟩
    intro e he
    simp at he
    rw [he]
    simp [Event.isNewRef, Event.isAddTorrentInfoHash, Event.isLookup, Event.isSave,
      Event.isHandler, Event.isAfterFunc]

/-- The first scenario of the spec: a magnet seen for the first time with an
empty cache is acquired once and dispatched once, and one release is set. -/
theorem acquire_dispatch_release_witness :
    (requestEvents demoHandler demoWorld { query := [("magnet", [demoMagnetUri])], path := "/x" }
        State.init).filter Event.isHandler = [.handler 7] ∧
    (withTorrentContext demoHandler demoWorld
        { query := [("magnet", [demoMagnetUri])], path := "/x" } State.init).1.timers
      = [{ setAt := 0, due := 3, key := demoHash }] :=
  have h := (acquire_dispatch_release demoHandler demoWorld
    { query := [("magnet", [demoMagnetUri])], path := "/x" } State.init).1
    demoHash (some demoMagnet) rfl
  ⟨h.2.2.1, h.2.2.2.2.2.2⟩

/-! ## The background saver -/

/-- C5, as the code has it: once either channel is ready, whichever it is,
`saveTorrentWhenGotInfo` calls `saveTorrentFile` exactly once and does nothing
else except log the error when the save returns one; the function has no
result to return an error in.  While neither channel is ready it does nothing. -/
theorem saver_saves_after_either_signal (w : World) (t : Torrent) :
    (∀ sig : Signal,
      saveTorrentWhenGotInfo w t (some sig) =
        some (.saveTorrentFile t ::
          (match w.saveTorrentFile t with
           | some err => [.logSaveError err]
           | none => []))) ∧
    saveTorrentWhenGotInfo w t none = none := by
  refine ⟨?_, rfl⟩
  intro sig
  cases sig <;> simp [saveTorrentWhenGotInfo]

/-- The torrent is closed before its info is known: the saver calls
`saveTorrentFile` all the same. -/
theorem saver_saves_when_closed_first :
    saveTorrentWhenGotInfo demoWorld 7 (some .Closed) = some [.saveTorrentFile 7] := by
  decide

/-! ## Trackers of a magnet -/

theorem extractInfohash_afterAdd_none (w : World) (r : Request) (ih : Hash)
    (afterAdd : Option Magnet) (hm : r.query.Get magnetQueryKey = "")
    (hok : extractInfohash w r = .ok (ih, afterAdd)) : afterAdd = none := by
  by_cases hx : ihhexOf r = ""
  · rw [extractInfohash_missing w r hm hx] at hok
    cases hok
  · rw [extractInfohash_hex w r hm hx] at hok
    cases hf : w.FromHexString (ihhexOf r) with
    | error e => simp [hf] at hok
    | ok v =>
      simp [hf] at hok
      exact hok.2.symm

theorem firstSight_trackersAdded (me : Handler) (w : World) (ih : Hash) (t : Torrent) :
    (firstSight me w ih t).flatMap Event.trackersAdded =
      if me.OnNewTorrent then []
      else match (cachedMetaInfo me w ih).1.1 with
        | some m => (w.TorrentSpecFromMetaInfoErr m).Trackers
        | none => [] := by
  simp only [firstSight]
  rcases cachedMetaInfo_shapes me w ih with ⟨p, hev⟩ | ⟨p, b, hev⟩ | ⟨p, hev⟩ | ⟨p, b, hev⟩ <;>
    cases (cachedMetaInfo me w ih).1.2 <;>
    cases (cachedMetaInfo me w ih).1.1 <;>
    cases me.OnNewTorrent <;>
    simp [hev, List.flatMap_append, List.flatMap_cons, Event.trackersAdded]

/-- C7, as the code has it: when a non-empty `magnet` parses to `m`, the request
calls `AddTrackers` on the acquired handle exactly once, with the one tier
`[m.Trackers]`, after the acquisition and for every `new` flag; a request with
an empty `magnet` (resolved through `ih` or the path, or not at all) makes no
`AddTrackers` call.  The trackers the middleware puts on the torrent are, in
order, those of the spec it merges (only on a new torrent, without the hook
`OnNewTorrent`, when the cache lookup returned a metainfo) and then the tier of
the magnet, if any; a request whose extraction fails adds none. -/
theorem magnet_trackers_once (me : Handler) (w : World) (r : Request) (s : State) :
    (∀ m, r.query.Get "magnet" ≠ "" → w.ParseMagnetUri (r.query.Get "magnet") = .ok m →
      (requestEvents me w r s).filter Event.isAddTrackers
        = [.addTrackers (w.AddTorrentInfoHash m.InfoHash).1 [m.Trackers]] ∧
      ∃ before after,
        requestEvents me w r s =
          [.newRef m.InfoHash, .addTorrentInfoHash m.InfoHash,
            .setCloser m.InfoHash (w.AddTorrentInfoHash m.InfoHash).1]
          ++ before
          ++ [.addTrackers (w.AddTorrentInfoHash m.InfoHash).1 [m.Trackers]]
          ++ after) ∧
    (r.query.Get "magnet" = "" →
      (requestEvents me w r s).filter Event.isAddTrackers = []) ∧
    (∀ ih afterAdd, extractInfohash w r = .ok (ih, afterAdd) →
      (r.query.Get "magnet" = "" → afterAdd = none) ∧
      (requestEvents me w r s).flatMap Event.trackersAdded =
        (if (w.AddTorrentInfoHash ih).2 = true ∧ me.OnNewTorrent = false then
          (match (cachedMetaInfo me w ih).1.1 with
           | some mi => (w.TorrentSpecFromMetaInfoErr mi).Trackers
           | none => [])
         else [])
        ++ (match afterAdd with
            | some m => [m.Trackers]
            | none => [])) ∧
    (∀ err, extractInfohash w r = .error err →
      (requestEvents me w r s).flatMap Event.trackersAdded = []) := by
  refine ⟨?_, ?_, ?_, ?_⟩
  rotate_left 2
  · intro ih afterAdd hok
    refine ⟨fun hm => extractInfohash_afterAdd_none w r ih afterAdd hm hok, ?_⟩
    rw [requestEvents_ok me w r s ih afterAdd hok]
    cases (w.AddTorrentInfoHash ih).2 <;> cases hh : me.OnNewTorrent <;> cases afterAdd <;>
      simp [List.flatMap_append, List.flatMap_cons, Event.trackersAdded, runAfterAdd,
        firstSight_trackersAdded, hh]
  · intro err herr
    rw [requestEvents_error me w r s err herr]
    simp [List.flatMap_cons, Event.trackersAdded]
  · intro m hm hp
    have hok : extractInfohash w r = .ok (m.InfoHash, some m) := by
      rw [extractInfohash_magnet w r hm]
      simp [magnetQueryKey, hp]
    rw [requestEvents_ok me w r s _ _ hok]
    refine ⟨?_, ?_⟩
    · cases (w.AddTorrentInfoHash m.InfoHash).2 <;>
        simp [List.filter_append, List.filter_cons, Event.isAddTrackers, runAfterAdd,
          filter_firstSight_nil me w m.InfoHash _ Event.isAddTrackers
            (by intro e; cases e <;> simp [Event.stage, Event.isAddTrackers])]
    · refine ⟨if (w.AddTorrentInfoHash m.InfoHash).2 then
          firstSight me w m.InfoHash (w.AddTorrentInfoHash m.InfoHash).1 else [],
        [.saveTorrentFile (w.AddTorrentInfoHash m.InfoHash).1,
          .handler (w.AddTorrentInfoHash m.InfoHash).1,
          .afterFunc me.TorrentGrace m.InfoHash], ?_⟩
      simp [runAfterAdd]
  · intro hm
    cases hex : extractInfohash w r with
    | error err =>
      rw [requestEvents_error me w r s err hex]
      simp [Event.isAddTrackers]
    | ok v =>
      obtain ⟨ih, afterAdd⟩ := v
      have hnone := extractInfohash_afterAdd_none w r ih afterAdd hm hex
      subst hnone
      rw [requestEvents_ok me w r s _ _ hex]
      cases (w.AddTorrentInfoHash ih).2 <;>
        simp [List.filter_append, List.filter_cons, Event.isAddTrackers, runAfterAdd,
          filter_firstSight_nil me w ih _ Event.isAddTrackers
            (by intro e; cases e <;> simp [Event.stage, Event.isAddTrackers])]

/-- The magnet of the examples: its tracker is added once, as one tier. -/
theorem magnet_trackers_once_witness :
    (requestEvents demoHandler demoWorld { query := [("magnet", [demoMagnetUri])], path := "/x" }
        State.init).filter Event.isAddTrackers
      = [.addTrackers 7 [["http://t.example/ann"]]] :=
  ((magnet_trackers_once demoHandler demoWorld
      { query := [("magnet", [demoMagnetUri])], path := "/x" } State.init).1
    demoMagnet (by decide) rfl).1

/-- A request addressed by `ih`, for a torrent that is new and whose cached
metainfo has an announce list, with no hook: the middleware puts that announce
list on the torrent through `MergeSpec`, though it makes no `AddTrackers` call. -/
theorem ih_request_adds_cached_trackers :
    Values.Get [("ih", [demoHex])] "magnet" = "" ∧
    (requestEvents demoHandler announcedWorld { query := [("ih", [demoHex])], path := "/x" }
        State.init).filter Event.isMergeSpec
      = [.mergeSpec 7 { Trackers := [["http://cached.example/ann"]], InfoBytes := [100, 101] }] ∧
    (requestEvents demoHandler announcedWorld { query := [("ih", [demoHex])], path := "/x" }
        State.init).flatMap Event.trackersAdded = [["http://cached.example/ann"]] := by
  decide

/-! ## The order of a request's effects -/

@[simp] theorem stage_newRef {ih} : (Event.newRef ih).stage = 0 := rfl

@[simp] theorem stage_addTorrentInfoHash {ih} : (Event.addTorrentInfoHash ih).stage = 0 := rfl

@[simp] theorem stage_setCloser {ih} {t} : (Event.setCloser ih t).stage = 0 := rfl

@[simp] theorem stage_storageOpen {p} : (Event.storageOpen p).stage = 1 := rfl

@[simp] theorem stage_osOpen {p} : (Event.osOpen p).stage = 1 := rfl

@[simp] theorem stage_load {b} : (Event.load b).stage = 1 := rfl

@[simp] theorem stage_logCacheError {ih} {err} : (Event.logCacheError ih err).stage = 1 := rfl

@[simp] theorem stage_setInfoBytes {t} {b} : (Event.setInfoBytes t b).stage = 2 := rfl

@[simp] theorem stage_onNewTorrent {t} {mi} : (Event.onNewTorrent t mi).stage = 2 := rfl

@[simp] theorem stage_mergeSpec {t} {spec} : (Event.mergeSpec t spec).stage = 2 := rfl

@[simp] theorem stage_goSaveTorrentWhenGotInfo {t} : (Event.goSaveTorrentWhenGotInfo t).stage = 3 := rfl

@[simp] theorem stage_addTrackers {t} {tiers} : (Event.addTrackers t tiers).stage = 4 := rfl

@[simp] theorem stage_saveTorrentFile {t} : (Event.saveTorrentFile t).stage = 5 := rfl

@[simp] theorem stage_handler {t} : (Event.handler t).stage = 6 := rfl

@[simp] theorem stage_afterFunc {g} {ih} : (Event.afterFunc g ih).stage = 7 := rfl

theorem filter_firstSight_stage2 (me : Handler) (w : World) (ih : Hash) (t : Torrent) :
    (firstSight me w ih t).filter (fun e => e.stage = 2) =
      (match (cachedMetaInfo me w ih).1.1 with
       | some m => [.setInfoBytes t m.InfoBytes]
       | none => [])
      ++ (if me.OnNewTorrent then [.onNewTorrent t (cachedMetaInfo me w ih).1.1]
          else match (cachedMetaInfo me w ih).1.1 with
            | some m => [.mergeSpec t (w.TorrentSpecFromMetaInfoErr m)]
            | none => []) := by
  simp only [firstSight]
  rcases cachedMetaInfo_shapes me w ih with ⟨p, hev⟩ | ⟨p, b, hev⟩ | ⟨p, hev⟩ | ⟨p, b, hev⟩ <;>
    cases (cachedMetaInfo me w ih).1.2 <;>
    cases (cachedMetaInfo me w ih).1.1 <;>
    cases me.OnNewTorrent <;>
    simp [hev, List.filter]

/-- C4, as the code has it: on a new torrent the middleware calls
`SetInfoBytes` on the handle exactly when the cache lookup returned a metainfo,
whether or not the hook `OnNewTorrent` is set; when the hook is set it then
calls the hook once with the handle and the metainfo (or nil) and never calls
`MergeSpec`; when no hook is set it calls `MergeSpec` with the derived spec
exactly when the lookup returned a metainfo.  The last conjunct gives the order:
the hydration effects of the request are the `SetInfoBytes` call, if any,
followed by the hook call or else the `MergeSpec` call, if any. -/
theorem hydration_on_new (me : Handler) (w : World) (r : Request) (s : State)
    (ih : Hash) (afterAdd : Option Magnet)
    (hok : extractInfohash w r = .ok (ih, afterAdd))
    (hnew : (w.AddTorrentInfoHash ih).2 = true) :
    (requestEvents me w r s).filter Event.isSetInfoBytes =
      (match (cachedMetaInfo me w ih).1.1 with
       | some m => [.setInfoBytes (w.AddTorrentInfoHash ih).1 m.InfoBytes]
       | none => []) ∧
    (requestEvents me w r s).filter Event.isOnNewTorrent =
      (if me.OnNewTorrent then
        [.onNewTorrent (w.AddTorrentInfoHash ih).1 (cachedMetaInfo me w ih).1.1]
       else []) ∧
    (requestEvents me w r s).filter Event.isMergeSpec =
      (if me.OnNewTorrent then []
       else match (cachedMetaInfo me w ih).1.1 with
         | some m => [.mergeSpec (w.AddTorrentInfoHash ih).1 (w.TorrentSpecFromMetaInfoErr m)]
         | none => []) ∧
    (requestEvents me w r s).filter (fun e => e.stage = 2) =
      (match (cachedMetaInfo me w ih).1.1 with
       | some m => [.setInfoBytes (w.AddTorrentInfoHash ih).1 m.InfoBytes]
       | none => [])
      ++ (if me.OnNewTorrent then
            [.onNewTorrent (w.AddTorrentInfoHash ih).1 (cachedMetaInfo me w ih).1.1]
          else match (cachedMetaInfo me w ih).1.1 with
            | some m =>
              [.mergeSpec (w.AddTorrentInfoHash ih).1 (w.TorrentSpecFromMetaInfoErr m)]
            | none => []) := by
  rw [requestEvents_ok me w r s ih afterAdd hok]
  refine ⟨?_, ?_, ?_, ?_⟩
  rotate_left 3
  · simp [hnew, List.filter_append, List.filter_cons, filter_firstSight_stage2,
      filter_runAfterAdd_nil afterAdd _ (fun e => decide (e.stage = 2))
        (by intro e h1; simp; omega)]
  · simp [hnew, List.filter_append, List.filter_cons, Event.isSetInfoBytes,
      filter_firstSight_setInfoBytes,
      filter_runAfterAdd_nil afterAdd _ Event.isSetInfoBytes
        (by intro e; cases e <;> simp [Event.stage, Event.isSetInfoBytes])]
  · simp [hnew, List.filter_append, List.filter_cons, Event.isOnNewTorrent,
      filter_firstSight_onNewTorrent,
      filter_runAfterAdd_nil afterAdd _ Event.isOnNewTorrent
        (by intro e; cases e <;> simp [Event.stage, Event.isOnNewTorrent])]
  · simp [hnew, List.filter_append, List.filter_cons, Event.isMergeSpec,
      filter_firstSight_mergeSpec,
      filter_runAfterAdd_nil afterAdd _ Event.isMergeSpec
        (by intro e; cases e <;> simp [Event.stage, Event.isMergeSpec])]

/-- A new torrent with cached metainfo and no hook: the middleware sets the
info bytes and merges the spec. -/
theorem hydration_on_new_witness :
    (requestEvents demoHandler cachedWorld { query := [("ih", [demoHex])], path := "/x" }
        State.init).filter Event.isMergeSpec = [.mergeSpec 7 { Trackers := [], InfoBytes := [100, 101] }] :=
  (hydration_on_new demoHandler cachedWorld { query := [("ih", [demoHex])], path := "/x" }
    State.init demoHash none rfl rfl).2.2.1

/-- A new torrent with cached metainfo and the hook `OnNewTorrent` set: the
middleware itself calls `SetInfoBytes` on the handle before it calls the hook. -/
theorem hook_does_not_stop_setInfoBytes :
    hookedHandler.OnNewTorrent = true ∧
    requestEvents hookedHandler cachedWorld { query := [("ih", [demoHex])], path := "/x" }
        State.init =
      [.newRef demoHash, .addTorrentInfoHash demoHash, .setCloser demoHash 7,
       .osOpen "cache/0123456789abcdef0123456789abcdef01234567.torrent",
       .load [100, 101],
       .setInfoBytes 7 [100, 101],
       .onNewTorrent 7 (some demoMetaInfo),
       .goSaveTorrentWhenGotInfo 7,
       .saveTorrentFile 7,
       .handler 7,
       .afterFunc 3 demoHash] := by
  decide

theorem filter_firstSight_stage3 (me : Handler) (w : World) (ih : Hash) (t : Torrent) :
    (firstSight me w ih t).filter (fun e => e.stage = 3) = [.goSaveTorrentWhenGotInfo t] := by
  simp only [firstSight]
  rcases cachedMetaInfo_shapes me w ih with ⟨p, hev⟩ | ⟨p, b, hev⟩ | ⟨p, hev⟩ | ⟨p, b, hev⟩ <;>
    cases (cachedMetaInfo me w ih).1.2 <;>
    cases (cachedMetaInfo me w ih).1.1 <;>
    cases me.OnNewTorrent <;>
    simp [hev, List.filter]

/-- C10: the effects of a request whose extraction succeeds come in the order of
their stages: acquisition, cache lookup, hydration or hook, start of the
background saver, after-add, eager save, dispatch (and last the deferred
release).  The after-add action, when there is one, and exactly one eager save
happen whatever `new` is; with `new` true the lookup is made and the saver
started once; with `new` false there is no lookup, no hook call, no
`SetInfoBytes` or `MergeSpec` and no saver. -/
theorem request_effect_order (me : Handler) (w : World) (r : Request) (s : State)
    (ih : Hash) (afterAdd : Option Magnet)
    (hok : extractInfohash w r = .ok (ih, afterAdd)) :
    ((requestEvents me w r s).map Event.stage).Pairwise (· ≤ ·) ∧
    (∀ e ∈ requestEvents me w r s, e.stage ≤ 7) ∧
    (requestEvents me w r s).filter (fun e => e.stage = 0)
      = [.newRef ih, .addTorrentInfoHash ih, .setCloser ih (w.AddTorrentInfoHash ih).1] ∧
    (requestEvents me w r s).filter (fun e => e.stage = 4)
      = runAfterAdd afterAdd (w.AddTorrentInfoHash ih).1 ∧
    (requestEvents me w r s).filter (fun e => e.stage = 5)
      = [.saveTorrentFile (w.AddTorrentInfoHash ih).1] ∧
    (requestEvents me w r s).filter (fun e => e.stage = 6)
      = [.handler (w.AddTorrentInfoHash ih).1] ∧
    ((w.AddTorrentInfoHash ih).2 = true →
      (requestEvents me w r s).filter Event.isLookup = (cachedMetaInfo me w ih).2 ∧
      (requestEvents me w r s).filter (fun e => e.stage = 3)
        = [.goSaveTorrentWhenGotInfo (w.AddTorrentInfoHash ih).1]) ∧
    ((w.AddTorrentInfoHash ih).2 = false →
      ∀ e ∈ requestEvents me w r s, ¬ (1 ≤ e.stage ∧ e.stage ≤ 3)) := by
  have hfs := firstSight_stage me w ih (w.AddTorrentInfoHash ih).1
  have hfsort := firstSight_sorted me w ih (w.AddTorrentInfoHash ih).1
  have haa := runAfterAdd_stage afterAdd (w.AddTorrentInfoHash ih).1
  rw [requestEvents_ok me w r s ih afterAdd hok]
  refine ⟨?_, ?_, ?_, ?_, ?_, ?_, ?_, ?_⟩
  · cases hn : (w.AddTorrentInfoHash ih).2
    · cases afterAdd <;> simp [runAfterAdd]
    · cases afterAdd <;>
        simp [runAfterAdd, List.pairwise_append, hfsort]
      all_goals
        intro a ha
        have := hfs a ha
        omega
  · intro e he
    simp only [List.mem_append, List.mem_cons, List.mem_singleton, List.not_mem_nil,
      or_false] at he
    rcases he with ((((he | he) | he) | he) | he) | he
    · rcases he with he | he | he <;> rw [he] <;> simp
    · cases hn : (w.AddTorrentInfoHash ih).2
      · simp [hn] at he
      · simp only [hn, if_true] at he
        have := hfs e he
        omega
    · have := haa e he
      omega
    · rw [he]
      simp
    · rw [he]
      simp
    · rw [he]
      simp
  · cases (w.AddTorrentInfoHash ih).2 <;>
      simp [List.filter_append, List.filter_cons,
        filter_firstSight_nil me w ih _ (fun e => decide (e.stage = 0))
          (by intro e h1 h2; simp; omega),
        filter_runAfterAdd_nil afterAdd _ (fun e => decide (e.stage = 0))
          (by intro e h1; simp; omega)]
  · have hself : (runAfterAdd afterAdd (w.AddTorrentInfoHash ih).1).filter
        (fun e => decide (e.stage = 4)) = runAfterAdd afterAdd (w.AddTorrentInfoHash ih).1 := by
      rw [List.filter_eq_self]
      intro e he
      simp [haa e he]
    cases (w.AddTorrentInfoHash ih).2 <;>
      simp [List.filter_append, List.filter_cons, hself,
        filter_firstSight_nil me w ih _ (fun e => decide (e.stage = 4))
          (by intro e h1 h2; simp; omega)]
  · cases (w.AddTorrentInfoHash ih).2 <;>
      simp [List.filter_append, List.filter_cons,
        filter_firstSight_nil me w ih _ (fun e => decide (e.stage = 5))
          (by intro e h1 h2; simp; omega),
        filter_runAfterAdd_nil afterAdd _ (fun e => decide (e.stage = 5))
          (by intro e h1; simp; omega)]
  · cases (w.AddTorrentInfoHash ih).2 <;>
      simp [List.filter_append, List.filter_cons,
        filter_firstSight_nil me w ih _ (fun e => decide (e.stage = 6))
          (by intro e h1 h2; simp; omega),
        filter_runAfterAdd_nil afterAdd _ (fun e => decide (e.stage = 6))
          (by intro e h1; simp; omega)]
  · intro hn
    refine ⟨?_, ?_⟩
    · simp [hn, List.filter_append, List.filter_cons, Event.isLookup,
        filter_firstSight_lookup,
        filter_runAfterAdd_nil afterAdd _ Event.isLookup
          (by intro e; cases e <;> simp [Event.stage, Event.isLookup])]
    · simp [hn, List.filter_append, List.filter_cons, filter_firstSight_stage3,
        filter_runAfterAdd_nil afterAdd _ (fun e => decide (e.stage = 3))
          (by intro e h1; simp; omega)]
  · intro hn e he
    simp only [hn, List.mem_append, List.mem_cons, List.mem_singleton, List.not_mem_nil,
      or_false] at he
    rcases he with ((((he | he) | he) | he) | he) | he
    · rcases he with he | he | he <;> rw [he] <;> simp
    · simp at he
    · have := haa e he
      omega
    · rw [he]
      simp
    · rw [he]
      simp
    · rw [he]
      simp

/-- The magnet of the examples, seen for the first time: its effects come in the
order of the stages. -/
theorem request_effect_order_witness :
    ((requestEvents demoHandler demoWorld { query := [("magnet", [demoMagnetUri])], path := "/x" }
        State.init).map Event.stage) = [0, 0, 0, 1, 3, 4, 5, 6, 7] ∧
    ((requestEvents demoHandler demoWorld { query := [("magnet", [demoMagnetUri])], path := "/x" }
        State.init).map Event.stage).Pairwise (· ≤ ·) :=
  ⟨by decide,
   (request_effect_order demoHandler demoWorld
      { query := [("magnet", [demoMagnetUri])], path := "/x" } State.init
      demoHash (some demoMagnet) rfl).1⟩

/-! ## The life of a registry entry -/

theorem lifecycleReplay_append (hk : Bool) (st : Replay) (a b : List Event) :
    lifecycleReplay hk st (a ++ b) =
      match lifecycleReplay hk st a with
      | none => none
      | some st' => lifecycleReplay hk st' b := by
  induction a generalizing st with
  | nil => rfl
  | cons e es ih =>
    simp only [List.cons_append, lifecycleReplay]
    cases lifecycleStep hk st e with
    | none => rfl
    | some st' => exact ih st'

theorem refCount_getTorrent (p : RefPool) (ih : Hash) (t : Torrent) (k : Hash) :
    refCount ((p.NewRef ih).SetCloser ih t) k =
      if k = ih then refCount p ih + 1 else refCount p k := by
  unfold refCount RefPool.SetCloser RefPool.NewRef
  by_cases hk : k = ih
  · subst hk
    cases hp : p k <;> simp [hp]
  · simp [hk]

theorem closerAt_getTorrent (p : RefPool) (ih : Hash) (t : Torrent) (k : Hash) :
    closerAt ((p.NewRef ih).SetCloser ih t) k =
      if k = ih then some t else closerAt p k := by
  unfold closerAt RefPool.SetCloser RefPool.NewRef
  by_cases hk : k = ih
  · subst hk
    cases hp : p k <;> simp [hp]
  · simp [hk]

theorem fired_append (k : Hash) (a b : List Event) :
    fired k (a ++ b) = fired k a + fired k b := by
  simp [fired, List.countP_append]

theorem timersFor_append (k : Hash) (a b : List Timer) :
    timersFor k (a ++ b) = timersFor k a + timersFor k b := by
  simp [timersFor, List.countP_append]

theorem eraseIdx_split (l : List Timer) (j : Nat) (tm : Timer) (h : l.get? j = some tm) :
    ∃ a b, l = a ++ tm :: b ∧ l.eraseIdx j = a ++ b := by
  induction l generalizing j with
  | nil => simp at h
  | cons x xs ih =>
    cases j with
    | zero =>
      simp at h
      exact ⟨[], xs, by simp [h], by simp⟩
    | succ j =>
      simp at h
      obtain ⟨a, b, h1, h2⟩ := ih j (by simpa using h)
      exact ⟨x :: a, b, by simp [h1], by simp [h2]⟩

theorem inv_init (h : Handler) : Inv h State.init (fun _ => 0) (fun _ => 0) where
  counts := by intro k; simp [State.init, refCount, timersFor]
  live := by intro k e he; simp [State.init] at he
  replay := ⟨Replay.start, rfl, rfl, by intro k; simp [State.init, refCount, Replay.start],
    by intro k; simp [State.init, closerAt, Replay.start]⟩
  due := by intro tm htm; simp [State.init] at htm
  grace := by intro ih a b hm; simp [State.init] at hm
  balance := by intro k; simp [State.init, refCount, fired]

theorem inv_getTorrent (h : Handler) (s : State) (held n : Hash → Nat)
    (ih : Hash) (t : Torrent) (new : Bool) (hinv : Inv h s held n) :
    Inv h (GetTorrent (fun _ => (t, new)) ih s).2 (bump held ih) (bump n ih) where
  counts := by
    intro k
    have := hinv.counts k
    have h2 := hinv.counts ih
    simp only [GetTorrent, refCount_getTorrent, bump]
    by_cases hk : k = ih
    · subst hk
      simp
      omega
    · simp [hk]
      omega
  live := by
    intro k e he
    simp only [GetTorrent, RefPool.SetCloser, RefPool.NewRef] at he
    by_cases hk : k = ih
    · subst hk
      cases hp : s.refs k with
      | none =>
        simp [hp] at he
        subst he
        simp
      | some e0 =>
        simp [hp] at he
        subst he
        simp
    · simp [hk] at he
      exact hinv.live k e he
  replay := by
    obtain ⟨st, hc, hp, hck, hcl⟩ := hinv.replay
    refine ⟨{ counts := bump st.counts ih, closers := assign st.closers ih (some t),
              pending := .nothing }, ?_, rfl, ?_, ?_⟩
    · simp only [GetTorrent]
      rw [lifecycleReplay_append, hc]
      have hb : bump st.counts ih ih ≠ 0 := by simp [bump]
      simp [lifecycleReplay, lifecycleStep, hp, hb]
    · intro k
      simp only [GetTorrent, refCount_getTorrent, bump]
      by_cases hk : k = ih
      · subst hk
        simp [hck]
      · simp [hk, hck]
    · intro k
      simp only [GetTorrent, closerAt_getTorrent, assign]
      by_cases hk : k = ih
      · simp [hk]
      · simp [hk, hcl]
  due := by
    intro tm htm
    exact hinv.due tm htm
  grace := by
    intro k a b hm
    simp only [GetTorrent, List.mem_append] at hm
    rcases hm with hm | hm
    · exact hinv.grace k a b hm
    · simp at hm
  balance := by
    intro k
    have := hinv.balance k
    have h2 := hinv.balance ih
    have h0 : ∀ u, fired k [Event.newRef ih, Event.addTorrentInfoHash ih, Event.setCloser ih u]
        = 0 := by
      intro u
      simp [fired]
    simp only [GetTorrent, refCount_getTorrent, bump, fired_append, h0]
    by_cases hk : k = ih
    · subst hk
      simp
      omega
    · simp [hk]
      omega

theorem inv_release (h : Handler) (s : State) (held n : Hash → Nat)
    (ih : Hash) (hinv : Inv h s held n) (hheld : 0 < held ih) :
    Inv h (release h ih s) (unbump held ih) n where
  counts := by
    intro k
    have := hinv.counts k
    have h1 : ∀ a b, timersFor k [{ setAt := a, due := b, key := ih }]
        = if ih = k then 1 else 0 := by
      intro a b
      by_cases hik : ih = k <;> simp [timersFor, List.countP_cons, hik]
    simp only [release, timersFor_append, unbump, h1]
    by_cases hk : k = ih
    · subst hk
      simp
      omega
    · have hk2 : ¬ ih = k := fun e => hk e.symm
      simp [hk, hk2]
      omega
  live := by
    intro k e he
    exact hinv.live k e he
  replay := by
    obtain ⟨st, hc, hp, hck, hcl⟩ := hinv.replay
    refine ⟨st, ?_, hp, hck, hcl⟩
    simp only [release]
    rw [lifecycleReplay_append, hc]
    simp [lifecycleReplay, lifecycleStep, hp]
  due := by
    intro tm htm
    simp only [release, List.mem_append, List.mem_singleton] at htm
    rcases htm with htm | htm
    · exact hinv.due tm htm
    · subst htm
      rfl
  grace := by
    intro k a b hm
    simp only [release, List.mem_append] at hm
    rcases hm with hm | hm
    · exact hinv.grace k a b hm
    · simp at hm
  balance := by
    intro k
    have := hinv.balance k
    have h0 : fired k [Event.afterFunc h.TorrentGrace ih] = 0 := by
      simp [fired]
    simp only [release, fired_append, h0]
    omega

theorem inv_tick (h : Handler) (s : State) (held n : Hash → Nat) (hinv : Inv h s held n) :
    Inv h { s with now := s.now + 1 } held n where
  counts := hinv.counts
  live := hinv.live
  replay := hinv.replay
  due := hinv.due
  grace := hinv.grace
  balance := hinv.balance

theorem release_spec (p : RefPool) (key : Hash) (e : Entry) (he : p key = some e)
    (h1 : 1 ≤ e.numRefs) :
    ∃ p', p.Release key = some (p', if e.numRefs = 1 then e.closer else none) ∧
      (∀ k, refCount p' k = if k = key then e.numRefs - 1 else refCount p k) ∧
      (∀ k e', p' k = some e' →
        (k ≠ key ∧ p k = some e') ∨
        (k = key ∧ 2 ≤ e.numRefs ∧ e' = { e with numRefs := e.numRefs - 1 })) ∧
      (∀ k, closerAt p' k =
        if k = key then (if e.numRefs = 1 then none else e.closer) else closerAt p k) := by
  by_cases hn : e.numRefs = 1
  · refine ⟨fun k => if k = key then none else p k, ?_, ?_, ?_, ?_⟩
    rotate_left 3
    · intro k
      by_cases hk : k = key <;> simp [closerAt, hk, hn]
    · simp [RefPool.Release, he, hn]
    · intro k
      by_cases hk : k = key <;> simp [refCount, hk, hn]
    · intro k e' hk'
      by_cases hk : k = key
      · simp [hk] at hk'
      · simp [hk] at hk'
        exact Or.inl ⟨hk, hk'⟩
  · have h0 : ¬ (e.numRefs - 1 = 0) := by omega
    refine ⟨fun k => if k = key then some { e with numRefs := e.numRefs - 1 } else p k,
      ?_, ?_, ?_, ?_⟩
    rotate_left 3
    · intro k
      by_cases hk : k = key <;> simp [closerAt, hk, hn]
    · simp [RefPool.Release, he, hn, h0]
    · intro k
      by_cases hk : k = key <;> simp [refCount, hk]
    · intro k e' hk'
      by_cases hk : k = key
      · simp [hk] at hk'
        exact Or.inr ⟨hk, by omega, hk'.symm⟩
      · simp [hk] at hk'
        exact Or.inl ⟨hk, hk'⟩

theorem inv_fire (h : Handler) (s : State) (held n : Hash → Nat) (tm : Timer)
    (a b : List Timer) (hsplit : s.timers = a ++ tm :: b) (hdue : tm.due ≤ s.now)
    (hinv : Inv h s held n) :
    ∃ s', fireTimer h tm { s with timers := a ++ b } = some s' ∧ Inv h s' held n := by
  have htk : ∀ k, timersFor k s.timers
      = timersFor k (a ++ b) + if tm.key = k then 1 else 0 := by
    intro k
    rw [hsplit]
    by_cases hk : tm.key = k
    · simp [timersFor, List.countP_append, List.countP_cons, hk]
      omega
    · simp [timersFor, List.countP_append, List.countP_cons, hk]
  have hpos : 1 ≤ refCount s.refs tm.key := by
    have h1 := hinv.counts tm.key
    have h2 := htk tm.key
    simp at h2
    omega
  obtain ⟨e, he⟩ : ∃ e, s.refs tm.key = some e := by
    cases hr : s.refs tm.key with
    | none => simp [refCount, hr] at hpos
    | some e => exact ⟨e, rfl⟩
  obtain ⟨hlive, hcl⟩ := hinv.live tm.key e he
  obtain ⟨t, ht⟩ : ∃ t, e.closer = some t := by
    cases hc : e.closer with
    | none => simp [hc] at hcl
    | some t => exact ⟨t, rfl⟩
  obtain ⟨p', hrel, hcount, hentries, hclosers⟩ := release_spec s.refs tm.key e he hlive
  have hrc : refCount s.refs tm.key = e.numRefs := by simp [refCount, he]
  have hmem : tm ∈ s.timers := by
    rw [hsplit]
    simp
  have hgr : tm.setAt + h.TorrentGrace ≤ s.now := by
    have := hinv.due tm hmem
    omega
  obtain ⟨st, hc, hp, hck, hcl⟩ := hinv.replay
  have hcounts : ∀ k, refCount p' k = held k + timersFor k (a ++ b) := by
    intro k
    have h1 := hinv.counts k
    have h2 := htk k
    rw [hcount k]
    by_cases hk : k = tm.key
    · subst hk
      simp at h2
      simp
      omega
    · have hk2 : ¬ tm.key = k := fun x => hk x.symm
      simp [hk]
      simp [hk2] at h2
      omega
  have hliveAll : ∀ k e', p' k = some e' → 1 ≤ e'.numRefs ∧ e'.closer.isSome = true := by
    intro k e' hk'
    rcases hentries k e' hk' with ⟨_, hp⟩ | ⟨_, h2, heq⟩
    · exact hinv.live k e' hp
    · subst heq
      simp [ht]
      omega
  have hdueAll : ∀ x ∈ a ++ b, x.due = x.setAt + h.TorrentGrace := by
    intro x hx
    apply hinv.due x
    rw [hsplit]
    simp only [List.mem_append, List.mem_cons] at hx ⊢
    tauto
  have hck2 : ∀ k, unbump st.counts tm.key k = refCount p' k := by
    intro k
    rw [hcount k]
    by_cases hk : k = tm.key
    · subst hk
      simp [unbump, hck, hrc]
    · simp [unbump, hk, hck]
  have hcat : closerAt s.refs tm.key = some t := by simp [closerAt, he, ht]
  have hfired : ∀ k tail, (∀ e ∈ tail, ∀ x y z, e ≠ Event.refRelease x y z) →
      fired k (Event.refRelease tm.key tm.setAt s.now :: tail)
        = if tm.key = k then 1 else 0 := by
    intro k tail htail
    have h0 : fired k tail = 0 := by
      simp only [fired, List.countP_eq_zero]
      intro e he'
      cases e <;> simp
      exact absurd rfl (htail _ he' _ _ _)
    have : fired k (Event.refRelease tm.key tm.setAt s.now :: tail)
        = fired k tail + if tm.key = k then 1 else 0 := by
      by_cases hk : tm.key = k <;> simp [fired, List.countP_cons, hk]
    rw [this, h0]
    simp
  have hbal : ∀ k tail, (∀ e ∈ tail, ∀ x y z, e ≠ Event.refRelease x y z) →
      refCount p' k + fired k (s.trace ++ Event.refRelease tm.key tm.setAt s.now :: tail)
        = n k := by
    intro k tail htail
    have h1 := hinv.balance k
    rw [fired_append, hfired k tail htail, hcount k]
    by_cases hk : k = tm.key
    · subst hk
      simp
      omega
    · have hk2 : ¬ tm.key = k := fun x => hk x.symm
      simp [hk, hk2]
      omega
  have hgrace : ∀ tail, (∀ e ∈ tail, ∀ x y z, e ≠ Event.refRelease x y z) →
      graceRespected h.TorrentGrace
        (s.trace ++ Event.refRelease tm.key tm.setAt s.now :: tail) := by
    intro tail htail k x y hm
    simp only [List.mem_append, List.mem_cons] at hm
    rcases hm with hm | hm | hm
    · exact hinv.grace k x y hm
    · cases hm
      exact hgr
    · exact absurd rfl (htail _ hm k x y)
  by_cases hn : e.numRefs = 1
  · simp only [hn, if_true, ht] at hrel
    refine ⟨{ refs := p', timers := a ++ b, now := s.now,
              trace := s.trace ++ Event.refRelease tm.key tm.setAt s.now ::
                runCloser h tm.key t },
      by simp only [fireTimer, hrel], ?_⟩
    have htail : ∀ e ∈ runCloser h tm.key t, ∀ x y z, e ≠ Event.refRelease x y z := by
      intro e he' x y z
      cases hh : h.OnTorrentGrace
      · simp [runCloser, hh] at he'
        rw [he']
        simp
      · simp [runCloser, hh] at he'
        rcases he' with he' | he' <;> rw [he'] <;> simp
    refine
      { counts := hcounts
        live := hliveAll
        replay := ⟨{ counts := unbump st.counts tm.key,
                     closers := assign st.closers tm.key none,
                     pending := .nothing }, ?_, rfl, hck2, ?_⟩
        due := hdueAll
        grace := hgrace _ htail
        balance := fun k => hbal k _ htail }
    · show lifecycleReplay h.OnTorrentGrace Replay.start
        (s.trace ++ Event.refRelease tm.key tm.setAt s.now :: runCloser h tm.key t) = _
      rw [lifecycleReplay_append, hc]
      have hc1 : st.counts tm.key = 1 := by rw [hck, hrc, hn]
      have hc2 : st.closers tm.key = some t := by rw [hcl, hcat]
      cases hh : h.OnTorrentGrace <;>
        simp [lifecycleReplay, lifecycleStep, runCloser, hc1, hc2, hh, hp]
    · intro k
      show assign st.closers tm.key none k = closerAt p' k
      rw [hclosers k]
      by_cases hk : k = tm.key
      · simp [assign, hk, hn]
      · simp [assign, hk, hcl]
  · have hne : (if e.numRefs = 1 then e.closer else none) = none := by simp [hn]
    rw [hne] at hrel
    refine ⟨{ refs := p', timers := a ++ b, now := s.now,
              trace := s.trace ++ [Event.refRelease tm.key tm.setAt s.now] },
      by simp only [fireTimer, hrel], ?_⟩
    have htail : ∀ e ∈ ([] : List Event), ∀ x y z, e ≠ Event.refRelease x y z := by
      intro e he'
      simp at he'
    refine
      { counts := hcounts
        live := hliveAll
        replay := ⟨{ counts := unbump st.counts tm.key,
                     closers := st.closers,
                     pending := .nothing }, ?_, rfl, hck2, ?_⟩
        due := hdueAll
        grace := hgrace _ htail
        balance := fun k => hbal k _ htail }
    · show lifecycleReplay h.OnTorrentGrace Replay.start
        (s.trace ++ [Event.refRelease tm.key tm.setAt s.now]) = _
      rw [lifecycleReplay_append, hc]
      have hc0 : st.counts tm.key ≠ 0 := by
        rw [hck, hrc]
        omega
      have hc1 : st.counts tm.key ≠ 1 := by
        rw [hck, hrc]
        exact hn
      simp [lifecycleReplay, lifecycleStep, hc0, hc1, hp]
    · intro k
      show st.closers k = closerAt p' k
      rw [hclosers k, hcl k]
      by_cases hk : k = tm.key
      · simp [hk, hn, closerAt, he]
      · simp [hk]

theorem inv_congr (h : Handler) (s : State) (held n n' : Hash → Nat)
    (hinv : Inv h s held n) (hn : ∀ k, n k = n' k) : Inv h s held n' where
  counts := hinv.counts
  live := hinv.live
  replay := hinv.replay
  due := hinv.due
  grace := hinv.grace
  balance := fun k => by rw [← hn k]; exact hinv.balance k

theorem created_cons (k : Hash) (op : Op) (ops : List Op) :
    created k (op :: ops) =
      created k ops +
        (match op with
         | .getTorrent ih _ _ => if ih = k then 1 else 0
         | _ => 0) := by
  cases op with
  | getTorrent ih t new =>
    by_cases hk : ih = k <;> simp [created, List.countP_cons, hk]
  | release ih => simp [created, List.countP_cons]
  | tick => simp [created, List.countP_cons]
  | fire j => simp [created, List.countP_cons]

theorem run_inv (h : Handler) (ops : List Op) :
    ∀ (s : State) (held n : Hash → Nat), Inv h s held n → wellFormedFrom held ops = true →
      ∃ s' held', run h s ops = some s' ∧ Inv h s' held' (fun k => n k + created k ops) := by
  induction ops with
  | nil =>
    intro s held n hinv _
    exact ⟨s, held, rfl, inv_congr h s held n _ hinv (by intro k; simp [created])⟩
  | cons op ops ih =>
    intro s held n hinv hwf
    cases op with
    | getTorrent k t new =>
      simp only [wellFormedFrom] at hwf
      obtain ⟨s', held', hrun, hinv'⟩ :=
        ih _ _ _ (inv_getTorrent h s held n k t new hinv) hwf
      refine ⟨s', held', by simp only [run, step, hrun], ?_⟩
      apply inv_congr h s' held' _ _ hinv'
      intro x
      simp [created_cons]
      by_cases hx : x = k
      · subst hx
        simp [bump]
        omega
      · have hx2 : ¬ k = x := fun e => hx e.symm
        simp [bump, hx, hx2]
    | release k =>
      simp only [wellFormedFrom, Bool.and_eq_true, decide_eq_true_eq] at hwf
      obtain ⟨s', held', hrun, hinv'⟩ :=
        ih _ _ _ (inv_release h s held n k hinv hwf.1) hwf.2
      refine ⟨s', held', by simp only [run, step, hrun], ?_⟩
      apply inv_congr h s' held' _ _ hinv'
      intro x
      simp [created_cons]
    | tick =>
      simp only [wellFormedFrom] at hwf
      obtain ⟨s', held', hrun, hinv'⟩ := ih _ _ _ (inv_tick h s held n hinv) hwf
      refine ⟨s', held', by simp only [run, step, hrun], ?_⟩
      apply inv_congr h s' held' _ _ hinv'
      intro x
      simp [created_cons]
    | fire j =>
      simp only [wellFormedFrom] at hwf
      have hstep : ∃ s1, step h s (.fire j) = some s1 ∧ Inv h s1 held n := by
        cases hj : s.timers.get? j with
        | none => exact ⟨s, by simp only [step, hj], hinv⟩
        | some tm =>
          by_cases hd : tm.due ≤ s.now
          · obtain ⟨a, b, hsplit, herase⟩ := eraseIdx_split s.timers j tm hj
            obtain ⟨s1, hs1, hinv1⟩ := inv_fire h s held n tm a b hsplit hd hinv
            refine ⟨s1, ?_, hinv1⟩
            simp only [step, hj, hd, if_true, herase]
            exact hs1
          · exact ⟨s, by simp only [step, hj, hd, if_false], hinv⟩
      obtain ⟨s1, hs1, hinv1⟩ := hstep
      obtain ⟨s', held', hrun, hinv'⟩ := ih _ _ _ hinv1 hwf
      refine ⟨s', held', by simp only [run, hs1, hrun], ?_⟩
      apply inv_congr h s' held' _ _ hinv'
      intro x
      simp [created_cons]

theorem fireTimer_closersSet (h : Handler) (tm : Timer) (s0 s1 : State)
    (hf : fireTimer h tm s0 = some s1) : closersSet s1.trace = closersSet s0.trace := by
  unfold fireTimer at hf
  cases hr : s0.refs.Release tm.key with
  | none => simp [hr] at hf
  | some pc =>
    obtain ⟨p', c⟩ := pc
    simp only [hr, Option.some.injEq] at hf
    subst hf
    cases c <;> cases hh : h.OnTorrentGrace <;>
      simp [closersSet, runCloser, List.filterMap_append, hh]

theorem step_closersSet (h : Handler) (op : Op) (s s1 : State)
    (hs : step h s op = some s1) :
    closersSet s1.trace = closersSet s.trace ++ acquired [op] := by
  cases op with
  | getTorrent k t new =>
    simp only [step, Option.some.injEq] at hs
    subst hs
    simp [GetTorrent, closersSet, acquired, List.filterMap_append]
  | release k =>
    simp only [step, Option.some.injEq] at hs
    subst hs
    simp [release, closersSet, acquired, List.filterMap_append]
  | tick =>
    simp only [step, Option.some.injEq] at hs
    subst hs
    simp [acquired]
  | fire j =>
    have hacq : acquired [Op.fire j] = [] := by simp [acquired]
    rw [hacq, List.append_nil]
    simp only [step] at hs
    cases hj : s.timers.get? j with
    | none =>
      simp only [hj, Option.some.injEq] at hs
      subst hs
      rfl
    | some tm =>
      simp only [hj] at hs
      by_cases hd : tm.due ≤ s.now
      · simp only [hd, if_true] at hs
        have := fireTimer_closersSet h tm _ s1 hs
        exact this
      · simp only [hd, if_false, Option.some.injEq] at hs
        subst hs
        rfl

theorem run_closersSet (h : Handler) (ops : List Op) :
    ∀ s s', run h s ops = some s' →
      closersSet s'.trace = closersSet s.trace ++ acquired ops := by
  induction ops with
  | nil =>
    intro s s' hr
    simp only [run, Option.some.injEq] at hr
    subst hr
    simp [acquired]
  | cons op ops ih =>
    intro s s' hr
    simp only [run] at hr
    cases hs : step h s op with
    | none => simp [hs] at hr
    | some s1 =>
      simp only [hs] at hr
      have hsplit : acquired (op :: ops) = acquired [op] ++ acquired ops := by
        unfold acquired
        rw [← List.filterMap_append]
        rfl
      rw [ih s1 s' hr, step_closersSet h op s s1 hs, hsplit, List.append_assoc]

/-- C9, with the condition it needs: for every sequence of `GetTorrent` calls,
invocations of the release functions they return and firings of the timers these
set, in which each returned release function is invoked at most once, the run
goes through and at its end: the registry has an entry for `k` exactly when
fewer releases have fired for `k` than `GetTorrent(k)` was called, the count of
the entry being the difference; the closers installed are, call by call, the
handles the client answered `GetTorrent` with; the trace is one the entry state
machine accepts, that is the closer runs right after each release that brings a
count to zero and nowhere else, with the handle of the closer installed last on
that entry, followed by `OnTorrentGrace` of that handle exactly when the hook is
set; and every release fired at least `TorrentGrace` after its release function
was invoked. -/
theorem registry_lifecycle (h : Handler) (ops : List Op) (hwf : WellFormed ops) :
    ∃ s, run h State.init ops = some s ∧
      (∀ k, present s k = true ↔ fired k s.trace < created k ops) ∧
      (∀ k, refCount s.refs k = created k ops - fired k s.trace) ∧
      closersSet s.trace = acquired ops ∧
      (∃ st, lifecycleReplay h.OnTorrentGrace Replay.start s.trace = some st ∧
        st.pending = .nothing ∧ (∀ k, st.counts k = refCount s.refs k) ∧
        (∀ k, st.closers k = closerAt s.refs k)) ∧
      graceRespected h.TorrentGrace s.trace := by
  obtain ⟨s, held, hrun, hinv⟩ :=
    run_inv h ops State.init (fun _ => 0) (fun _ => 0) (inv_init h) hwf
  have hcs := run_closersSet h ops State.init s hrun
  refine ⟨s, hrun, ?_, ?_, ?_, hinv.replay, hinv.grace⟩
  · intro k
    have hb := hinv.balance k
    simp only [Nat.zero_add] at hb
    cases hr : s.refs k with
    | none =>
      simp [refCount, hr] at hb
      simp [present, hr]
      omega
    | some e =>
      have hl := (hinv.live k e hr).1
      simp [refCount, hr] at hb
      simp [present, hr]
      omega
  · intro k
    have hb := hinv.balance k
    simp only [Nat.zero_add] at hb
    omega
  · rw [hcs]
    simp [State.init, closersSet]

/-- Two overlapping requests for one torrent, with the hook set: the entry
outlives the first release and is torn down, with one closer run, by the
second. -/
theorem registry_lifecycle_witness :
    (run hookedHandler State.init
        [.getTorrent [1] 9 true, .getTorrent [1] 9 false, .release [1], .tick, .tick, .tick,
          .fire 0, .release [1], .tick, .tick, .tick, .fire 0]).map (fun s => s.trace)
      = some [.newRef [1], .addTorrentInfoHash [1], .setCloser [1] 9,
          .newRef [1], .addTorrentInfoHash [1], .setCloser [1] 9,
          .afterFunc 3 [1], .refRelease [1] 0 3, .afterFunc 3 [1],
          .refRelease [1] 3 6, .closer [1] 9, .onTorrentGrace 9] ∧
    ∃ s, run hookedHandler State.init
        [.getTorrent [1] 9 true, .getTorrent [1] 9 false, .release [1], .tick, .tick, .tick,
          .fire 0, .release [1], .tick, .tick, .tick, .fire 0] = some s ∧
      (present s [1] = true ↔
        fired [1] s.trace < created [1]
          [.getTorrent [1] 9 true, .getTorrent [1] 9 false, .release [1], .tick, .tick, .tick,
            .fire 0, .release [1], .tick, .tick, .tick, .fire 0]) :=
  ⟨by decide,
   (registry_lifecycle hookedHandler
      [.getTorrent [1] 9 true, .getTorrent [1] 9 false, .release [1], .tick, .tick, .tick,
        .fire 0, .release [1], .tick, .tick, .tick, .fire 0] (by decide)).imp
     (fun _ hs => ⟨hs.1, hs.2.1 [1]⟩)⟩

/-- One `GetTorrent` whose release function is invoked twice: the first release
to fire tears the entry down while the second is still pending, and when that
one fires there is no entry to release, so the run has no result. -/
theorem double_release_has_no_result :
    (run demoHandler State.init
        [.getTorrent [1] 7 true, .release [1], .release [1], .tick, .tick, .tick,
          .fire 0]).map (fun s => (present s [1], s.timers.length)) = some (false, 1) ∧
    (run demoHandler State.init
        [.getTorrent [1] 7 true, .release [1], .release [1], .tick, .tick, .tick,
          .fire 0, .fire 0]).isSome = false := by
  decide

end Confluence
